import Mathlib

set_option maxRecDepth 8000

/-!
Verification of the document-quality-check (DQC) evaluation pipeline.

Python strings are modelled as `List Char`; Python floats are modelled as
exact rationals (`Frac` below), which agrees with the source on every decimal
constant the code compares against; fallible operations return `Option`.
`json.loads` is modelled by an executable recursive-descent parser over
`List Char` following RFC 8259 exactly as Python's `json` module does
(strict mode: control characters in strings are rejected, trailing commas
are rejected, objects take the last of a repeated key).  Two corners of
Python's parser are deliberately out of the model and unused by any claim:
the non-standard `NaN`/`Infinity` literals, and `\u` escapes denoting lone
surrogates.
-/

namespace DQC

/-- JSON insignificant whitespace (RFC 8259), as skipped by `json.loads`. -/
def isJsonWs (c : Char) : Bool :=
  c = ' ' || c = '\t' || c = '\n' || c = '\r'

/-- Whitespace removed by Python `str.strip()` (the ASCII range). -/
def isPyWs (c : Char) : Bool :=
  c = ' ' || c = '\t' || c = '\n' || c = '\r' || c = '\x0b' || c = '\x0c'

/-- Whitespace matched by `\s` in Python's `re` module (the ASCII range). -/
def isReWs (c : Char) : Bool :=
  c = ' ' || c = '\t' || c = '\n' || c = '\r' || c = '\x0b' || c = '\x0c'

/-- Skip JSON whitespace. -/
def skipWs (l : List Char) : List Char := l.dropWhile isJsonWs

/-- Python float values are modelled as exact rationals kept in lowest terms
with a positive denominator.  (Every decimal constant the source compares
against is exactly representable, and all numbers flowing through the
engine originate from decimal literals, so exact rational arithmetic agrees
with the source's float arithmetic on everything the claims mention.) -/
structure Frac where
  num : Int
  den : Nat
  den_pos : 0 < den

theorem Frac.ext_iff {a b : Frac} : a = b ↔ a.num = b.num ∧ a.den = b.den := by
  cases a; cases b; simp

instance : DecidableEq Frac := fun a b =>
  decidable_of_iff (a.num = b.num ∧ a.den = b.den) Frac.ext_iff.symm

/-- Reduce a fraction to lowest terms. -/
def Frac.normalize (n : Int) (d : Nat) (h : 0 < d) : Frac :=
  let g := Nat.gcd n.natAbs d
  ⟨n / (g : Int), d / g,
    Nat.div_pos (Nat.le_of_dvd h (Nat.gcd_dvd_right _ _))
      (Nat.gcd_pos_of_pos_right _ h)⟩

/-- The value `(-1)^neg * m * 10^e`, as written by a decimal literal. -/
def Frac.ofScaled (neg : Bool) (m : Nat) (e : Int) : Frac :=
  let n : Int := if neg then -(m : Int) else (m : Int)
  if 0 ≤ e then Frac.normalize (n * (10 : Int) ^ e.toNat) 1 (by decide)
  else Frac.normalize n ((10 : Nat) ^ (-e).toNat) (Nat.pos_pow_of_pos _ (by decide))

/-- A nonnegative integer value. -/
def Frac.ofNat (n : Nat) : Frac := ⟨(n : Int), 1, by decide⟩

instance : OfNat Frac n := ⟨Frac.ofNat n⟩

/-- Order on fractions by cross multiplication (denominators are positive). -/
def Frac.le (a b : Frac) : Prop := a.num * (b.den : Int) ≤ b.num * (a.den : Int)

/-- Strict order on fractions by cross multiplication. -/
def Frac.lt (a b : Frac) : Prop := a.num * (b.den : Int) < b.num * (a.den : Int)

instance : LE Frac := ⟨Frac.le⟩

instance : LT Frac := ⟨Frac.lt⟩

instance (a b : Frac) : Decidable (a ≤ b) :=
  inferInstanceAs (Decidable (a.num * (b.den : Int) ≤ b.num * (a.den : Int)))

instance (a b : Frac) : Decidable (a < b) :=
  inferInstanceAs (Decidable (a.num * (b.den : Int) < b.num * (a.den : Int)))

/-- Python `str.strip()`. -/
def pyStrip (l : List Char) : List Char :=
  ((l.dropWhile isPyWs).reverse.dropWhile isPyWs).reverse

/-- Parsed JSON data, as `json.loads` builds it: objects keep the insertion
order of their keys and hold each key once (a repeated key keeps its first
position and the last value, as a Python `dict` does). -/
inductive Json : Type where
  | null : Json
  | bool (b : Bool) : Json
  | num (q : Frac) : Json
  | str (s : List Char) : Json
  | arr (elems : List Json) : Json
  | obj (fields : List (List Char × Json)) : Json

mutual

/-- Structural equality test on parsed JSON values. -/
def Json.beq : Json → Json → Bool
  | .null, .null => true
  | .bool a, .bool b => a == b
  | .num a, .num b => a == b
  | .str a, .str b => a == b
  | .arr a, .arr b => Json.beqList a b
  | .obj a, .obj b => Json.beqFields a b
  | _, _ => false

/-- Pointwise equality test on lists of JSON values. -/
def Json.beqList : List Json → List Json → Bool
  | [], [] => true
  | x :: xs, y :: ys => Json.beq x y && Json.beqList xs ys
  | _, _ => false

/-- Pointwise equality test on object field lists. -/
def Json.beqFields : List (List Char × Json) → List (List Char × Json) → Bool
  | [], [] => true
  | (k1, v1) :: xs, (k2, v2) :: ys =>
      k1 == k2 && Json.beq v1 v2 && Json.beqFields xs ys
  | _, _ => false

end

mutual

theorem Json.beq_iff : ∀ a b : Json, Json.beq a b = true ↔ a = b
  | .null, .null => by simp [Json.beq]
  | .bool _, .bool _ => by simp [Json.beq]
  | .num _, .num _ => by simp [Json.beq]
  | .str _, .str _ => by simp [Json.beq]
  | .arr x, .arr y => by simp [Json.beq, Json.beqList_iff x y]
  | .obj x, .obj y => by simp [Json.beq, Json.beqFields_iff x y]
  | .null, .bool _ | .null, .num _ | .null, .str _ | .null, .arr _ | .null, .obj _
  | .bool _, .null | .bool _, .num _ | .bool _, .str _ | .bool _, .arr _ | .bool _, .obj _
  | .num _, .null | .num _, .bool _ | .num _, .str _ | .num _, .arr _ | .num _, .obj _
  | .str _, .null | .str _, .bool _ | .str _, .num _ | .str _, .arr _ | .str _, .obj _
  | .arr _, .null | .arr _, .bool _ | .arr _, .num _ | .arr _, .str _ | .arr _, .obj _
  | .obj _, .null | .obj _, .bool _ | .obj _, .num _ | .obj _, .str _ | .obj _, .arr _ =>
      by simp [Json.beq]

theorem Json.beqList_iff : ∀ xs ys : List Json, Json.beqList xs ys = true ↔ xs = ys
  | [], [] => by simp [Json.beqList]
  | x :: xs, y :: ys => by
      simp [Json.beqList, Json.beq_iff x y, Json.beqList_iff xs ys]
  | [], _ :: _ => by simp [Json.beqList]
  | _ :: _, [] => by simp [Json.beqList]

theorem Json.beqFields_iff :
    ∀ xs ys : List (List Char × Json), Json.beqFields xs ys = true ↔ xs = ys
  | [], [] => by simp [Json.beqFields]
  | (k1, v1) :: xs, (k2, v2) :: ys => by
      simp [Json.beqFields, Json.beq_iff v1 v2, Json.beqFields_iff xs ys, and_assoc]
  | [], _ :: _ => by simp [Json.beqFields]
  | _ :: _, [] => by simp [Json.beqFields]

end

instance : DecidableEq Json := fun a b =>
  decidable_of_iff (Json.beq a b = true) (Json.beq_iff a b)

/-- `d[k] = v` on a Python dict: overwrite in place, or append a new key. -/
def objInsert (fields : List (List Char × Json)) (k : List Char) (v : Json) :
    List (List Char × Json) :=
  if fields.any (fun p => decide (p.1 = k)) then
    fields.map (fun p => if p.1 = k then (k, v) else p)
  else fields ++ [(k, v)]

/-- Value of a hexadecimal digit. -/
def hexVal (c : Char) : Option Nat :=
  if '0' ≤ c ∧ c ≤ '9' then some (c.toNat - 48)
  else if 'a' ≤ c ∧ c ≤ 'f' then some (c.toNat - 87)
  else if 'A' ≤ c ∧ c ≤ 'F' then some (c.toNat - 55)
  else none

/-- Decoding of a one-character JSON escape sequence. -/
def escChar (c : Char) : Option Char :=
  if c = '"' then some '"'
  else if c = '\\' then some '\\'
  else if c = '/' then some '/'
  else if c = 'b' then some (Char.ofNat 8)
  else if c = 'f' then some (Char.ofNat 12)
  else if c = 'n' then some '\n'
  else if c = 'r' then some '\r'
  else if c = 't' then some '\t'
  else none

/-- The character with a given code point, when it is a unicode scalar. -/
def charOfCode (v : Nat) : Option Char :=
  if v.isValidChar then some (Char.ofNat v) else none

/-- Body of a JSON string literal, after the opening quote: the decoded
characters and what follows the closing quote.  Strict mode: raw control
characters are rejected, as Python's `json.loads` does by default. -/
def parseStringBody : List Char → Option (List Char × List Char)
  | [] => none
  | '"' :: rest => some ([], rest)
  | '\\' :: 'u' :: h1 :: h2 :: h3 :: h4 :: rest =>
      match hexVal h1, hexVal h2, hexVal h3, hexVal h4 with
      | some a, some b, some c, some d =>
          match charOfCode (((a * 16 + b) * 16 + c) * 16 + d) with
          | some ch => (parseStringBody rest).map (fun p => (ch :: p.1, p.2))
          | none => none
      | _, _, _, _ => none
  | '\\' :: e :: rest =>
      match escChar e with
      | some ch => (parseStringBody rest).map (fun p => (ch :: p.1, p.2))
      | none => none
  | c :: rest =>
      if c.toNat < 32 then none
      else (parseStringBody rest).map (fun p => (c :: p.1, p.2))

/-- Digits read as a decimal natural number. -/
def digitsToNat (ds : List Char) : Nat :=
  ds.foldl (fun a c => a * 10 + (c.toNat - 48)) 0

/-- Integer part of a JSON number: `0`, or a nonzero digit then digits. -/
def parseIntPart : List Char → Option (Nat × List Char)
  | '0' :: r => some (0, r)
  | c :: r =>
      if c.isDigit then
        some (digitsToNat (c :: r.takeWhile Char.isDigit), r.dropWhile Char.isDigit)
      else none
  | [] => none

/-- Optional fraction part of a JSON number: its digits. -/
def parseFracPart : List Char → Option (List Char × List Char)
  | '.' :: r =>
      let ds := r.takeWhile Char.isDigit
      if ds.isEmpty then none
      else some (ds, r.dropWhile Char.isDigit)
  | cs => some ([], cs)

/-- Optional exponent part of a JSON number. -/
def parseExpPart : List Char → Option (Int × List Char)
  | [] => some (0, [])
  | c :: r =>
      if c = 'e' ∨ c = 'E' then
        let sr : Int × List Char :=
          match r with
          | '+' :: r2 => (1, r2)
          | '-' :: r2 => (-1, r2)
          | _ => (1, r)
        let ds := sr.2.takeWhile Char.isDigit
        if ds.isEmpty then none
        else some (sr.1 * (digitsToNat ds : Int), sr.2.dropWhile Char.isDigit)
      else some (0, c :: r)

/-- A JSON number token, as an exact rational. -/
def parseNumber (cs : List Char) : Option (Frac × List Char) :=
  let nr : Bool × List Char :=
    match cs with
    | '-' :: r => (true, r)
    | _ => (false, cs)
  match parseIntPart nr.2 with
  | none => none
  | some (ip, r1) =>
    match parseFracPart r1 with
    | none => none
    | some (fd, r2) =>
      match parseExpPart r2 with
      | none => none
      | some (ex, r3) =>
          some (Frac.ofScaled nr.1 (ip * 10 ^ fd.length + digitsToNat fd)
                  (ex - fd.length), r3)

mutual

/-- A JSON value.  The input has its leading whitespace already skipped; the
fuel only bounds the recursion depth and is chosen large enough by
`jsonLoadsL` below. -/
def parseValue : Nat → List Char → Option (Json × List Char)
  | 0, _ => none
  | Nat.succ f, cs =>
    match cs with
    | '{' :: r => parseObjBody f (skipWs r)
    | '[' :: r => parseArrBody f (skipWs r)
    | '"' :: r => (parseStringBody r).map (fun p => (Json.str p.1, p.2))
    | 't' :: 'r' :: 'u' :: 'e' :: r => some (Json.bool true, r)
    | 'f' :: 'a' :: 'l' :: 's' :: 'e' :: r => some (Json.bool false, r)
    | 'n' :: 'u' :: 'l' :: 'l' :: r => some (Json.null, r)
    | c :: r =>
        if c = '-' ∨ c.isDigit then
          (parseNumber (c :: r)).map (fun p => (Json.num p.1, p.2))
        else none
    | [] => none

/-- Inside an object, after the opening brace and its whitespace. -/
def parseObjBody : Nat → List Char → Option (Json × List Char)
  | 0, _ => none
  | Nat.succ f, cs =>
    match cs with
    | '}' :: r => some (Json.obj [], r)
    | _ => parseMembers f cs []

/-- One or more `"key": value` members, then the closing brace. -/
def parseMembers : Nat → List Char → List (List Char × Json) →
    Option (Json × List Char)
  | 0, _, _ => none
  | Nat.succ f, cs, acc =>
    match cs with
    | '"' :: r =>
      match parseStringBody r with
      | none => none
      | some (k, r1) =>
        match skipWs r1 with
        | ':' :: r2 =>
          match parseValue f (skipWs r2) with
          | none => none
          | some (v, r3) =>
            match skipWs r3 with
            | ',' :: r4 => parseMembers f (skipWs r4) (objInsert acc k v)
            | '}' :: r4 => some (Json.obj (objInsert acc k v), r4)
            | _ => none
        | _ => none
    | _ => none

/-- Inside an array, after the opening bracket and its whitespace. -/
def parseArrBody : Nat → List Char → Option (Json × List Char)
  | 0, _ => none
  | Nat.succ f, cs =>
    match cs with
    | ']' :: r => some (Json.arr [], r)
    | _ => parseElems f cs []

/-- One or more array elements, then the closing bracket. -/
def parseElems : Nat → List Char → List Json → Option (Json × List Char)
  | 0, _, _ => none
  | Nat.succ f, cs, acc =>
    match parseValue f cs with
    | none => none
    | some (v, r1) =>
      match skipWs r1 with
      | ',' :: r2 => parseElems f (skipWs r2) (acc ++ [v])
      | ']' :: r2 => some (Json.arr (acc ++ [v]), r2)
      | _ => none

end

/-- `json.loads` on a `List Char`: parse one value surrounded by optional
whitespace; anything left over is an error ("Extra data"). -/
def jsonLoadsL (l : List Char) : Option Json :=
  match parseValue (4 * l.length + 16) (skipWs l) with
  | some (v, rest) => if skipWs rest = [] then some v else none
  | none => none

/-! ## Python string operations used by the engine's repair helpers -/

/-- Python `text.split("\n")`. -/
def pySplitNl : List Char → List (List Char)
  | [] => [[]]
  | c :: r =>
      if c = '\n' then [] :: pySplitNl r
      else
        match pySplitNl r with
        | [] => [[c]]
        | l :: ls => (c :: l) :: ls

/-- Python `"\n".join(lines)`. -/
def pyJoinNl : List (List Char) → List Char
  | [] => []
  | [l] => l
  | l :: ls => l ++ '\n' :: pyJoinNl ls

/-- The backtick character (code point 96). -/
def btick : Char := Char.ofNat 96

/-- The three-character Markdown fence delimiter. -/
def fence3 : List Char := [btick, btick, btick]

/-- Does `pat` occur in `l` starting at index `i`? -/
def matchesAt (pat l : List Char) (i : Nat) : Bool := pat.isPrefixOf (l.drop i)

/-- Python `text.rfind(pat)` scanning down from index `i`. -/
def pyRfindFrom (pat l : List Char) : Nat → Option Nat
  | 0 => if matchesAt pat l 0 then some 0 else none
  | i + 1 => if matchesAt pat l (i + 1) then some (i + 1) else pyRfindFrom pat l i

/-- Python `text.rfind(pat)`: the highest index at which `pat` occurs. -/
def pyRfind (pat l : List Char) : Option Nat :=
  if l.length < pat.length then none
  else pyRfindFrom pat l (l.length - pat.length)

/-- `DQCEngine._strip_markdown_fences`: remove a leading ```-fence line and a
trailing ``` delimiter, then strip whitespace. -/
def strip_markdown_fences (t0 : List Char) : List Char :=
  let t1 := pyStrip t0
  let t2 := if fence3.isPrefixOf t1 then pyJoinNl ((pySplitNl t1).drop 1) else t1
  let t3 :=
    if fence3.isSuffixOf t2 then
      match pyRfind fence3 t2 with
      | some i => t2.take i
      | none => t2
    else t2
  pyStrip t3

/-- State of `DQCEngine._extract_json_block`'s scan: brace depth, whether the
scan is inside a string literal, and whether the previous character was an
unconsumed backslash. -/
structure ScanSt where
  depth : Int
  inStr : Bool
  esc : Bool
  deriving DecidableEq

/-- One character of the bracket-matching scan. -/
def scanStep (st : ScanSt) (c : Char) : ScanSt :=
  if st.esc then { st with esc := false }
  else if c = '\\' then { st with esc := true }
  else if c = '"' then { st with inStr := !st.inStr }
  else if st.inStr then st
  else if c = '{' then { st with depth := st.depth + 1 }
  else if c = '}' then { st with depth := st.depth - 1 }
  else st

/-- Does processing `c` in state `st` close the top-level brace (the scan's
return condition: a structural `}` that brings the depth to zero)? -/
def closesTop (st : ScanSt) (c : Char) : Bool :=
  !st.esc && !st.inStr && c = '}' && st.depth == 1

/-- The scan loop of `_extract_json_block`: walk the characters, return the
accumulated text through the `}` that brings the depth back to zero. -/
def extractLoop (st : ScanSt) (acc : List Char) : List Char → Option (List Char)
  | [] => none
  | c :: cs =>
      if closesTop st c then some (acc ++ [c])
      else extractLoop (scanStep st c) (acc ++ [c]) cs

/-- `DQCEngine._extract_json_block`: the first balanced `{...}` block, found
by bracket matching that respects string literals and escapes. -/
def extract_json_block (t : List Char) : Option (List Char) :=
  match t.dropWhile (fun c => !(c = '{' : Bool)) with
  | [] => none
  | post => extractLoop ⟨0, false, false⟩ [] post

theorem length_dropWhile_le (p : Char → Bool) (l : List Char) :
    (l.dropWhile p).length ≤ l.length := by
  induction l with
  | nil => simp [List.dropWhile]
  | cons c r ih =>
      by_cases h : p c = true <;> simp [List.dropWhile, h] <;> try omega

/-- The scan of `_repair_json` with explicit fuel (each step consumes at
least one character, so any fuel of at least the input's length is enough;
`repair_json` below supplies it). -/
def repairAux : Nat → List Char → List Char
  | 0, l => l
  | _ + 1, [] => []
  | f + 1, c :: rest =>
      if c = ',' then
        match rest.dropWhile isReWs with
        | b :: r2 =>
            if b = '}' ∨ b = ']' then b :: repairAux f r2
            else ',' :: repairAux f rest
        | [] => ',' :: repairAux f rest
      else c :: repairAux f rest

/-- `DQCEngine._repair_json`: Python `re.sub(r",\s*([}\]])", r"\1", text)` —
drop a comma that is followed by optional whitespace and a closing brace or
bracket (everywhere in the text, string literals included, scanning left to
right over non-overlapping matches). -/
def repair_json (l : List Char) : List Char := repairAux (l.length + 1) l

/-- No position of the text matches the trailing-comma pattern of
`_repair_json` (a `,` followed by optional whitespace and `\x7d` or `]`):
exactly the texts that `repair_json` leaves unchanged. -/
def cleanFrom : List Char → Bool
  | [] => true
  | c :: rest =>
      (if c = ',' then
        match rest.dropWhile isReWs with
        | b :: _ => if b = '}' ∨ b = ']' then false else true
        | [] => true
       else true) && cleanFrom rest

/-- A text wrapped in Markdown code fences, as an LLM would emit it:
```` ```json ````, the text, then ```` ``` ```` on its own line. -/
def fenceWrap (s : List Char) : List Char :=
  fence3 ++ "json\n".data ++ s ++ '\n' :: fence3

/-- `isinstance(data, dict) and "evaluations" in data`. -/
def hasEvalsKey : Json → Bool
  | Json.obj fs => fs.any (fun p => decide (p.1 = "evaluations".data))
  | _ => false

/-- The first parse attempt that yields a JSON object containing an
`evaluations` key, in the attempt order of `_try_parse_json`. -/
def firstValidJson : List (List Char) → Option Json
  | [] => none
  | t :: ts =>
      match jsonLoadsL t with
      | some d => if hasEvalsKey d then some d else firstValidJson ts
      | none => firstValidJson ts

/-- `DQCEngine._try_parse_json`: multi-layer JSON parsing with progressive
repair — direct parse, fence stripping, balanced-block extraction, and
trailing-comma repair of the extracted block, in that order. -/
def try_parse_json (raw : List Char) : Option Json :=
  let attempts := [pyStrip raw, strip_markdown_fences raw] ++
    (match extract_json_block raw with
     | some e => [e, repair_json e]
     | none => [])
  firstValidJson attempts

/-! ## The DQC data model (`src/models/dqc.py`) -/

/-- `DQCStatus`. -/
inductive DQCStatus : Type where
  | Pass : DQCStatus
  | Fail : DQCStatus
  | Partial : DQCStatus
  deriving DecidableEq

/-- `DQCStatus(value)`: the enum member with a given string value. -/
def DQCStatus.ofString (s : List Char) : Option DQCStatus :=
  if s = "Pass".data then some .Pass
  else if s = "Fail".data then some .Fail
  else if s = "Partial".data then some .Partial
  else none

/-- `RiskLevel`. -/
inductive RiskLevel : Type where
  | Critical : RiskLevel
  | High : RiskLevel
  | Medium : RiskLevel
  | Low : RiskLevel
  deriving DecidableEq

/-- `RiskLevel(value)`: the enum member with a given string value. -/
def RiskLevel.ofString (s : List Char) : Option RiskLevel :=
  if s = "Critical".data then some .Critical
  else if s = "High".data then some .High
  else if s = "Medium".data then some .Medium
  else if s = "Low".data then some .Low
  else none

/-- `DQCItem` (the free-form `metadata` dict, unused by the engine, is
omitted). -/
structure DQCItem where
  item_id : List Char
  category : List Char
  requirement : List Char
  criteria : List Char
  weight : Frac := Frac.ofNat 1
  deriving DecidableEq

/-- `DQCChecklist`. -/
structure DQCChecklist where
  version : List Char
  name : List Char
  description : List Char
  items : List DQCItem
  deriving DecidableEq

/-- `DQCEvaluationResult` — a finding for one checklist item.  Pydantic's
`ge=0.0, le=1.0` bound on `confidence_score` is enforced at the validated
construction site (`convertEntry` below), as pydantic enforces it at
validation time. -/
structure DQCEvaluationResult where
  dqc_item_id : List Char
  status : DQCStatus
  justification : List Char
  evidence_quotes : List (List Char) := []
  risk_level : RiskLevel
  recommendation : Option (List Char) := none
  confidence_score : Frac
  sections_reviewed : List (List Char) := []
  deriving DecidableEq

/-! ## The risk matrix and the evaluation engine (`src/evaluation/dqc_engine.py`) -/

/-- A short decimal constant, e.g. `frac 8 10` for the literal `0.8`. -/
def frac (n : Int) (d : Nat) (h : 0 < d := by decide) : Frac := Frac.normalize n d h

/-- `_risk_level`: compute risk level from the scoring matrix. -/
def risk_level (status : DQCStatus) (confidence : Frac) : RiskLevel :=
  if status = .Fail then
    if frac 8 10 ≤ confidence then .Critical
    else if frac 5 10 ≤ confidence then .High
    else .Medium
  else if status = .Partial then
    if frac 8 10 ≤ confidence then .High
    else if frac 5 10 ≤ confidence then .Medium
    else .Low
  else  -- Pass
    if confidence < frac 5 10 then .Low else .Low

/-- Python `dict.get(key, default)` on a parsed JSON object. -/
def jget (d : Json) (k : List Char) (dflt : Json) : Json :=
  match d with
  | .obj fs =>
      match fs.find? (fun p => decide (p.1 = k)) with
      | some p => p.2
      | none => dflt
  | _ => dflt

/-- Python `float(x)` on a string: optional whitespace and sign, digits
with an optional point and exponent.  (`inf`/`nan` spellings and digit
underscores are not modelled; an `inf`/`nan` confidence would fail the
`[0,1]` bound just as a parse error fails the conversion, with the same
skip outcome.) -/
def pyFloatOfChars (s : List Char) : Option Frac :=
  let t := pyStrip s
  let nr : Bool × List Char :=
    match t with
    | '-' :: r => (true, r)
    | '+' :: r => (false, r)
    | _ => (false, t)
  let ip := nr.2.takeWhile Char.isDigit
  let r1 := nr.2.dropWhile Char.isDigit
  let fr : Option (List Char × List Char) :=
    match r1 with
    | '.' :: r2 => some (r2.takeWhile Char.isDigit, r2.dropWhile Char.isDigit)
    | _ => some ([], r1)
  match fr with
  | none => none
  | some (fd, r3) =>
      if ip.isEmpty ∧ fd.isEmpty then none
      else
        match parseExpPart r3 with
        | none => none
        | some (ex, r4) =>
            if r4.isEmpty then
              some (Frac.ofScaled nr.1 (digitsToNat ip * 10 ^ fd.length + digitsToNat fd)
                      (ex - fd.length))
            else none

/-- Python `float(x)` on a parsed JSON value (`TypeError` for the rest). -/
def pyFloat : Json → Option Frac
  | .num q => some q
  | .bool b => some (if b then Frac.ofNat 1 else Frac.ofNat 0)
  | .str s => pyFloatOfChars s
  | _ => none

/-- Pydantic `list[str]` validation of a parsed JSON value. -/
def listOfStrs : Json → Option (List (List Char))
  | .arr xs => xs.mapM (fun x => match x with | .str s => some s | _ => none)
  | _ => none

/-- One entry of the batch response's `evaluations` array, converted to a
`DQCEvaluationResult` exactly as the loop body of `_parse_batch_response`
does: `raw.get` defaults for missing fields, enum coercion of `status` and
`risk_level`, `float()` on the confidence, pydantic validation of the field
types and of the `[0,1]` confidence bound.  `none` models the exception
caught by the per-entry `try`, which skips the entry. -/
def convertEntry (raw : Json) : Option DQCEvaluationResult :=
  match raw with
  | .obj _ => do
      let id ← (match jget raw "dqc_item_id".data (Json.str []) with
                | .str s => some s | _ => none)
      let st ← (match jget raw "status".data (Json.str "Partial".data) with
                | .str s => DQCStatus.ofString s | _ => none)
      let just ← (match jget raw "justification".data (Json.str []) with
                  | .str s => some s | _ => none)
      let ev ← listOfStrs (jget raw "evidence_quotes".data (Json.arr []))
      let rl ← (match jget raw "risk_level".data (Json.str "Medium".data) with
                | .str s => RiskLevel.ofString s | _ => none)
      let rec0 ← (match jget raw "recommendation".data Json.null with
                  | .str s => some (some s) | .null => some none | _ => none)
      let conf ← pyFloat (jget raw "confidence_score".data (Json.num (frac 1 2)))
      let sec ← listOfStrs (jget raw "sections_reviewed".data (Json.arr []))
      if Frac.ofNat 0 ≤ conf ∧ conf ≤ Frac.ofNat 1 then
        some ⟨id, st, just, ev, rl, rec0, conf, sec⟩
      else none
  | _ => none

/-- The fallback finding `_parse_batch_response` builds for every item when
no parse attempt succeeds. -/
def fallbackUnparsed (item : DQCItem) : DQCEvaluationResult :=
  { dqc_item_id := item.item_id
    status := .Partial
    justification := "Evaluation response could not be parsed.".data
    risk_level := .Medium
    recommendation := some "Manual review required.".data
    confidence_score := Frac.ofNat 0 }

/-- The fallback finding `_parse_batch_response` appends for a checklist
item missing from the parsed `evaluations`. -/
def fallbackMissing (item : DQCItem) : DQCEvaluationResult :=
  { dqc_item_id := item.item_id
    status := .Partial
    justification := "Item was not included in batch evaluation response.".data
    risk_level := .Medium
    recommendation := some "Manual review required for this item.".data
    confidence_score := Frac.ofNat 0 }

/-- Python iteration over the value found at `"evaluations"`: a list
iterates its elements, a string its characters, a dict its keys; iterating
a number, bool or `None` raises `TypeError` (uncaught there). -/
def iterElems : Json → Option (List Json)
  | .arr xs => some xs
  | .str s => some (s.map (fun c => Json.str [c]))
  | .obj fs => some (fs.map (fun p => Json.str p.1))
  | _ => none

/-- `_parse_batch_response`: parse the raw batch response; on total parse
failure return uniform fallbacks, otherwise convert each entry (skipping the
malformed ones) and fill in a fallback for every checklist item whose id was
not seen.  The summary is the raw JSON value at `"executive_summary"` (its
type is only checked later, by the report model's validation); `none`
models the uncaught `TypeError` of iterating a non-iterable `evaluations`
value. -/
def parse_batch_response (raw : List Char) (checklist : DQCChecklist) :
    Option (List DQCEvaluationResult × Json) :=
  match try_parse_json raw with
  | none =>
      some (checklist.items.map fallbackUnparsed,
            Json.str "Evaluation completed but results could not be fully parsed.".data)
  | some data =>
      match iterElems (jget data "evaluations".data (Json.arr [])) with
      | none => none
      | some raws =>
          let converted := raws.filterMap convertEntry
          let seen := converted.map (fun f => f.dqc_item_id)
          let fallbacks :=
            (checklist.items.filter (fun it => decide (it.item_id ∉ seen))).map fallbackMissing
          some (converted ++ fallbacks, jget data "executive_summary".data (Json.str []))

/-- One possible behaviour of the generative evaluator chain on one item:
the first invocation succeeds, the first fails and the truncated-context
retry succeeds, or both fail (with the retry's error message). -/
inductive EvalOutcome : Type where
  | ok (r : DQCEvaluationResult) : EvalOutcome
  | retryOk (r : DQCEvaluationResult) : EvalOutcome
  | bothFail (errMsg : List Char) : EvalOutcome

/-- `DQCEngine.evaluate_item`, with the two external collaborators made
explicit: `retrievalEmpty` states whether retrieval returned no chunks, and
`outcome` is the evaluator chain's behaviour (unconsulted when retrieval is
empty, since the code returns before any model call). -/
def evaluate_item (item : DQCItem) (retrievalEmpty : Bool) (outcome : EvalOutcome) :
    DQCEvaluationResult :=
  if retrievalEmpty then
    { dqc_item_id := item.item_id
      status := .Fail
      justification := "No relevant content found in the document for this requirement.".data
      risk_level := .High
      recommendation := some ("Ensure the document addresses: ".data ++ item.requirement)
      confidence_score := frac 3 10 }
  else
    match outcome with
    | .ok r => { r with risk_level := risk_level r.status r.confidence_score }
    | .retryOk r => { r with risk_level := risk_level r.status r.confidence_score }
    | .bothFail e =>
        { dqc_item_id := item.item_id
          status := .Partial
          justification := "Evaluation failed: ".data ++ e
          risk_level := .Medium
          recommendation := some "Manual review required for this item.".data
          confidence_score := Frac.ofNat 0 }

/-- `Recommendation` (from `src/models/report.py`). -/
structure Recommendation where
  priority : Nat
  dqc_item_id : List Char
  action : List Char
  risk_impact : RiskLevel
  deriving DecidableEq

/-- `RiskDistribution`. -/
structure RiskDistribution where
  critical : Nat
  high : Nat
  medium : Nat
  low : Nat
  deriving DecidableEq

/-- `ComplianceSummary` (`partial_count` models the source's `partial`
field). -/
structure ComplianceSummary where
  score : Frac
  total_items : Nat
  passed : Nat
  failed : Nat
  partial_count : Nat
  risk_distribution : RiskDistribution
  deriving DecidableEq

/-- `ComplianceReport`, restricted to the fields the engine computes;
document and audit metadata (identifiers, token counts, timing) are
pass-through values from outside the evaluation logic and are omitted. -/
structure ComplianceReport where
  dqc_version : List Char
  overall_compliance : ComplianceSummary
  executive_summary : List Char
  findings : List DQCEvaluationResult
  recommendations : List Recommendation
  deriving DecidableEq

/-- The rank used to sort recommendations by risk severity. -/
def risk_order (r : RiskLevel) : Nat :=
  match r with
  | .Critical => 0
  | .High => 1
  | .Medium => 2
  | .Low => 3

/-- `DQCEngine._build_recommendations`: one entry per non-Pass finding
carrying a (truthy) recommendation, stably sorted by risk severity,
numbered from 1. -/
def build_recommendations (findings : List DQCEvaluationResult) : List Recommendation :=
  let non_pass := findings.filter
    (fun f => decide (f.status ≠ .Pass) && !(f.recommendation.getD []).isEmpty)
  let sorted := non_pass.mergeSort
    (fun a b => decide (risk_order a.risk_level ≤ risk_order b.risk_level))
  sorted.enum.map (fun p =>
    { priority := p.1 + 1
      dqc_item_id := p.2.dqc_item_id
      action := p.2.recommendation.getD []
      risk_impact := p.2.risk_level })

/-- Python `round(x, 1)` in exact arithmetic: round half to even at one
decimal place. -/
def pyRound1 (x : Frac) : Frac :=
  let n : Int := x.num * 10
  let d : Int := (x.den : Int)
  let q : Int := Int.fdiv n d
  let r2 : Int := 2 * (n - q * d)
  let t : Int := if r2 < d then q else if d < r2 then q + 1
                 else if q % 2 = 0 then q else q + 1
  Frac.normalize t 10 (by decide)

/-- `score = round((passed / total) * 100, 1) if total else 0.0`. -/
def computeScore (passed total : Nat) : Frac :=
  match total with
  | 0 => Frac.ofNat 0
  | t + 1 => pyRound1 (Frac.normalize ((passed : Int) * 100) (t + 1) (Nat.succ_pos t))

/-- The aggregation step shared verbatim by `evaluate_checklist` and
`evaluate_checklist_long_context` (lines 183–228 and 302–340 of the
source duplicate it): status counts, score, risk histogram,
recommendations, report assembly. -/
def buildReport (checklist : DQCChecklist) (findings : List DQCEvaluationResult)
    (executive_summary : List Char) : ComplianceReport :=
  let passed := (findings.filter (fun f => decide (f.status = .Pass))).length
  let failed := (findings.filter (fun f => decide (f.status = .Fail))).length
  let partialCnt := (findings.filter (fun f => decide (f.status = .Partial))).length
  let total := findings.length
  { dqc_version := checklist.version
    overall_compliance :=
      { score := computeScore passed total
        total_items := total
        passed := passed
        failed := failed
        partial_count := partialCnt
        risk_distribution :=
          { critical := (findings.filter (fun f => decide (f.risk_level = .Critical))).length
            high := (findings.filter (fun f => decide (f.risk_level = .High))).length
            medium := (findings.filter (fun f => decide (f.risk_level = .Medium))).length
            low := (findings.filter (fun f => decide (f.risk_level = .Low))).length } }
    executive_summary := executive_summary
    findings := findings
    recommendations := build_recommendations findings }

/-- `DQCEngine.evaluate_checklist` (the retrieval-augmented strategy):
evaluate every item independently and sequentially, then aggregate.  The
retrieval outcome and evaluator behaviour for the k-th item are external
inputs; so is the executive summary text (`_generate_summary` is a further
generative call whose failure falls back to a templated line — either way a
string, which is all the claims use). -/
def evaluate_checklist (checklist : DQCChecklist) (retrievalEmpty : Nat → Bool)
    (oracle : Nat → EvalOutcome) (executive_summary : List Char) : ComplianceReport :=
  let findings := checklist.items.enum.map
    (fun p => evaluate_item p.2 (retrievalEmpty p.1) (oracle p.1))
  buildReport checklist findings executive_summary

/-- `DQCEngine.evaluate_checklist_long_context` (the batch strategy): parse
the single raw model response, overwrite every finding's risk level with
the matrix, aggregate.  `none` models an uncaught exception (non-iterable
`evaluations`, or a non-string `executive_summary` rejected by the report
model), which aborts the run. -/
def evaluate_checklist_long_context (checklist : DQCChecklist) (raw : List Char) :
    Option ComplianceReport :=
  match parse_batch_response raw checklist with
  | none => none
  | some (fs0, summaryJ) =>
      let findings := fs0.map
        (fun f => { f with risk_level := risk_level f.status f.confidence_score })
      match summaryJ with
      | .str summary => some (buildReport checklist findings summary)
      | _ => none

/-! ## The chunker (`src/preprocessing/chunker.py`)

Sentences, chunks and words are `List Char` texts; the token counter
(`tiktoken` in the source) is an arbitrary function parameter, so every
statement below holds for the real tokenizer in particular.  Chunks are
kept as lists of their sentences (`split_text_sents`); joining them with
single spaces (`split_text`) is the source's `" ".join(current)`. -/

/-- Python `str.split()`: split on whitespace runs, dropping empty words. -/
def pySplitWsAux : List Char → List Char → List (List Char)
  | [], w => if w.isEmpty then [] else [w]
  | c :: r, w =>
      if isPyWs c then
        if w.isEmpty then pySplitWsAux r [] else w :: pySplitWsAux r []
      else pySplitWsAux r (w ++ [c])

/-- Python `str.split()` with no separator. -/
def pySplitWs (l : List Char) : List (List Char) := pySplitWsAux l []

/-- `" ".join(pieces)`. -/
def joinSp (xs : List (List Char)) : List Char := List.intercalate [' '] xs

/-- The loop of `_overlap_carry`: walk the flushed buffer backwards,
prepending sentences while they fit the overlap budget. -/
def carryLoop (tokens : List Char → Nat) (overlap : Nat) :
    List (List Char) → List (List Char) → Nat → List (List Char) × Nat
  | [], carry, tok => (carry, tok)
  | s :: rest, carry, tok =>
      if overlap < tok + tokens s then (carry, tok)
      else carryLoop tokens overlap rest (s :: carry) (tok + tokens s)

/-- `_overlap_carry`: the tail of `current` that fits within
`overlap_tokens`, and its token total. -/
def overlap_carry (tokens : List Char → Nat) (current : List (List Char))
    (overlap : Nat) : List (List Char) × Nat :=
  carryLoop tokens overlap current.reverse [] 0

/-- The word-level force-split loop for a single over-long sentence. -/
def wordLoop (tokens : List Char → Nat) (maxT : Nat) :
    List (List Char) → List (List (List Char)) → List (List Char) → Nat →
    List (List (List Char)) × List (List Char) × Nat
  | [], chunks, buf, tok => (chunks, buf, tok)
  | w :: ws, chunks, buf, tok =>
      let wt := tokens w
      if maxT < tok + wt ∧ ¬buf.isEmpty then
        wordLoop tokens maxT ws (chunks ++ [buf]) [w] wt
      else wordLoop tokens maxT ws chunks (buf ++ [w]) (tok + wt)

/-- The sentence loop of `_split_text`, carrying the accumulated chunks,
the current buffer and its token count. -/
def splitLoop (tokens : List Char → Nat) (maxT overlap : Nat) :
    List (List Char) → List (List (List Char)) → List (List Char) → Nat →
    List (List (List Char))
  | [], chunks, current, _ => if current.isEmpty then chunks else chunks ++ [current]
  | s :: rest, chunks, current, curTok =>
      let st := tokens s
      if maxT < st then
        let fl : List (List (List Char)) × List (List Char) × Nat :=
          if current.isEmpty then (chunks, current, curTok)
          else
            let co := overlap_carry tokens current overlap
            (chunks ++ [current], co.1, co.2)
        let wl := wordLoop tokens maxT (pySplitWs s) fl.1 [] 0
        if wl.2.1.isEmpty then splitLoop tokens maxT overlap rest wl.1 fl.2.1 fl.2.2
        else splitLoop tokens maxT overlap rest wl.1 wl.2.1 wl.2.2
      else
        if maxT < curTok + st ∧ ¬current.isEmpty then
          let co := overlap_carry tokens current overlap
          splitLoop tokens maxT overlap rest (chunks ++ [current]) (co.1 ++ [s]) (co.2 + st)
        else splitLoop tokens maxT overlap rest chunks (current ++ [s]) (curTok + st)

/-- `_split_text` on an already sentence-split section, keeping each chunk
as its list of sentences (word-split chunks as their lists of words). -/
def split_text_sents (tokens : List Char → Nat) (maxT overlap : Nat)
    (sentences : List (List Char)) : List (List (List Char)) :=
  splitLoop tokens maxT overlap sentences [] [] 0

/-- `wordLoop` instrumented with the carried-prefix length of each emitted
chunk, which is 0 for every word-split chunk (the word path does not honor
the overlap policy). -/
def wordLoopAnn (tokens : List Char → Nat) (maxT : Nat) :
    List (List Char) → List (List (List Char) × Nat) → List (List Char) → Nat →
    List (List (List Char) × Nat) × List (List Char) × Nat
  | [], chunks, buf, tok => (chunks, buf, tok)
  | w :: ws, chunks, buf, tok =>
      let wt := tokens w
      if maxT < tok + wt ∧ ¬buf.isEmpty then
        wordLoopAnn tokens maxT ws (chunks ++ [(buf, 0)]) [w] wt
      else wordLoopAnn tokens maxT ws chunks (buf ++ [w]) (tok + wt)

/-- `splitLoop` instrumented with, for each emitted chunk and for the
running buffer, how many of its leading pieces are the carry copied from
the previously flushed chunk (0 for the first chunk and for word-split
chunks).  Projecting the annotation away gives back `splitLoop`. -/
def splitLoopAnn (tokens : List Char → Nat) (maxT overlap : Nat) :
    List (List Char) → List (List (List Char) × Nat) → List (List Char) → Nat → Nat →
    List (List (List Char) × Nat)
  | [], chunks, current, _, k =>
      if current.isEmpty then chunks else chunks ++ [(current, k)]
  | s :: rest, chunks, current, curTok, k =>
      let st := tokens s
      if maxT < st then
        let fl : List (List (List Char) × Nat) × List (List Char) × Nat × Nat :=
          if current.isEmpty then (chunks, current, curTok, k)
          else
            let co := overlap_carry tokens current overlap
            (chunks ++ [(current, k)], co.1, co.2, co.1.length)
        let wl := wordLoopAnn tokens maxT (pySplitWs s) fl.1 [] 0
        if wl.2.1.isEmpty then
          splitLoopAnn tokens maxT overlap rest wl.1 fl.2.1 fl.2.2.1 fl.2.2.2
        else splitLoopAnn tokens maxT overlap rest wl.1 wl.2.1 wl.2.2 0
      else
        if maxT < curTok + st ∧ ¬current.isEmpty then
          let co := overlap_carry tokens current overlap
          splitLoopAnn tokens maxT overlap rest (chunks ++ [(current, k)])
            (co.1 ++ [s]) (co.2 + st) co.1.length
        else splitLoopAnn tokens maxT overlap rest chunks (current ++ [s]) (curTok + st) k

/-- The chunks of `_split_text` annotated with their carried-prefix
lengths. -/
def split_text_ann (tokens : List Char → Nat) (maxT overlap : Nat)
    (sentences : List (List Char)) : List (List (List Char) × Nat) :=
  splitLoopAnn tokens maxT overlap sentences [] [] 0 0

/-- The overlap relation between one emitted chunk and the next: the next
chunk's carried prefix is a suffix of the previous chunk, fits the overlap
token budget, and (when nonempty) is exactly `_overlap_carry` of the
previous chunk. -/
def carryRel (tokens : List Char → Nat) (overlap : Nat)
    (a b : List (List Char) × Nat) : Prop :=
  (b.1.take b.2).IsSuffix a.1
  ∧ ((b.1.take b.2).map tokens).sum ≤ overlap
  ∧ (b.2 = 0 ∨ b.1.take b.2 = (overlap_carry tokens a.1 overlap).1)

/-- `_split_text`: the emitted chunk texts, `" ".join`ed as in the source. -/
def split_text (tokens : List Char → Nat) (maxT overlap : Nat)
    (sentences : List (List Char)) : List (List Char) :=
  (split_text_sents tokens maxT overlap sentences).map joinSp

/-! ## The orchestrator (`src/orchestration/orchestrator.py`) -/

/-- `PipelineStage` — note the `aggregation` member, which the enum defines. -/
inductive PipelineStage : Type where
  | pending : PipelineStage
  | ingestion : PipelineStage
  | preprocessing : PipelineStage
  | embedding : PipelineStage
  | evaluation : PipelineStage
  | aggregation : PipelineStage
  | reporting : PipelineStage
  | completed : PipelineStage
  | failed : PipelineStage
  deriving DecidableEq

/-- The field names the `Settings` class in `src/config.py` declares (a
pydantic `BaseSettings` with `extra="ignore"`: reading any attribute
outside this list raises `AttributeError`). -/
def settingsFields : List (List Char) :=
  ["environment", "log_level", "llm_provider", "llm_model", "llm_temperature",
   "llm_max_tokens", "embedding_provider", "embedding_model",
   "embedding_dimensions", "google_api_key", "openai_api_key",
   "anthropic_api_key", "chroma_persist_dir", "chroma_collection_name",
   "retrieval_top_k", "retrieval_score_threshold", "chunk_size",
   "chunk_overlap", "upload_dir", "report_dir", "dqc_dir", "audit_db_path",
   "api_host", "api_port", "api_key"].map String.data

/-- Does `Settings` declare a field of this name? -/
def settingsHasField (f : List Char) : Bool := settingsFields.contains f

/-- `Pipeline._should_use_long_context`, parameterised by the two
configuration values it reads (`settings.evaluation_mode` and
`settings.long_context_max_tokens`) and the raw text's character count;
`_CHARS_PER_TOKEN = 4`. -/
def should_use_long_context (mode : List Char) (ceiling : Frac) (rawLen : Nat) : Bool :=
  if mode = "rag".data then false
  else if mode = "long_context".data then true
  else decide (Frac.normalize (rawLen : Int) 4 (by decide) < ceiling)

/-- The `(stage, progress)` emissions of a successful `Pipeline.run`, for
each evaluation branch. -/
def successTrace (useLongContext : Bool) : List (PipelineStage × Nat) :=
  [(.ingestion, 5), (.ingestion, 15)] ++
  (if useLongContext then [(.evaluation, 20), (.evaluation, 85)]
   else [(.preprocessing, 18), (.preprocessing, 25), (.embedding, 28),
         (.embedding, 40), (.evaluation, 42), (.evaluation, 85)]) ++
  [(.reporting, 90), (.completed, 100)]

/-- The emissions of a run whose `k`-th step raises: everything emitted
before the failure, then the handler's `failed` emission at the progress
already reached (initially 0). -/
def failTrace (useLongContext : Bool) (k : Nat) : List (PipelineStage × Nat) :=
  let pre := (successTrace useLongContext).take k
  pre ++ [(.failed, ((pre.map Prod.snd).getLast?).getD 0)]

/-- All emissions of one run: a successful one, or one failing after `k`
emissions. -/
def runTrace (useLongContext : Bool) (failAfter : Option Nat) :
    List (PipelineStage × Nat) :=
  match failAfter with
  | none => successTrace useLongContext
  | some k => failTrace useLongContext k

/-- Does the evaluator's outcome for an item carry the item's own id (the
engine never overwrites the id the model returns)? -/
def echoesId (o : EvalOutcome) (item : DQCItem) : Prop :=
  match o with
  | .ok r => r.dqc_item_id = item.item_id
  | .retryOk r => r.dqc_item_id = item.item_id
  | .bothFail _ => True

/-! ## Concrete fixtures used by witnesses and counterexamples -/

/-- A checklist item with a given id. -/
def exItem (id : List Char) : DQCItem :=
  { item_id := id, category := "Structure".data,
    requirement := "Has a title".data, criteria := "Must have a title".data }

/-- A one-item checklist (item id `A`). -/
def CL1 : DQCChecklist := ⟨"1.0".data, "Test".data, [], [exItem "A".data]⟩

/-- A five-item checklist. -/
def CL5 : DQCChecklist :=
  ⟨"1.0".data, "Test".data, [],
   [exItem "I1".data, exItem "I2".data, exItem "I3".data,
    exItem "I4".data, exItem "I5".data]⟩

/-- The empty checklist. -/
def CL0 : DQCChecklist := ⟨"1.0".data, "Test".data, [], []⟩

/-- An evaluator result with a given id and status. -/
def exResult (id : List Char) (st : DQCStatus) : DQCEvaluationResult :=
  { dqc_item_id := id, status := st, justification := "j".data,
    risk_level := .Low, confidence_score := frac 9 10 }

/-- A batch response whose single evaluation carries the id `B`, foreign to
the one-item checklist `CL1`. -/
def rawForeignId : List Char :=
  "\x7b\"evaluations\": [\x7b\"dqc_item_id\": \"B\", \"status\": \"Pass\", \"justification\": \"j\", \"confidence_score\": 1.0\x7d]\x7d".data

/-- A clean batch response: one evaluation for item `A`, and a summary. -/
def rawCleanA : List Char :=
  "\x7b\"evaluations\": [\x7b\"dqc_item_id\": \"A\", \"status\": \"Pass\", \"justification\": \"j\", \"confidence_score\": 0.95\x7d], \"executive_summary\": \"ok\"\x7d".data

/-- A well-formed parsed evaluation entry for item `A`. -/
def entryA : Json :=
  Json.obj [("dqc_item_id".data, Json.str "A".data),
            ("status".data, Json.str "Pass".data),
            ("justification".data, Json.str "j".data),
            ("confidence_score".data, Json.num (frac 9 10))]

/-- A minimal clean response: a JSON object with an `evaluations` key. -/
def sW5 : List Char := "\x7b\"evaluations\":[]\x7d".data

/-- `sW5` without its final closing brace. -/
def uW5 : List Char := "\x7b\"evaluations\":[]".data

/-- The parse of `sW5`. -/
def vW5 : Json := Json.obj [("evaluations".data, Json.arr [])]

/-- A response containing no JSON object at all. -/
def bad5 : List Char := "no json here".data

/-- A response (without its final closing brace) whose `x` value is the
string literal `",\x7d"` — the text that `_repair_json` mangles. -/
def uC5 : List Char := "\x7b\"evaluations\":[],\"x\":\",\x7d\"".data

/-- The parse of `uC5` plus a closing brace: `x` maps to the string `,\x7d`. -/
def vC5 : Json :=
  Json.obj [("evaluations".data, Json.arr []),
            ("x".data, Json.str ",\x7d".data)]

/-- What the recovery parser actually returns for `uC5` plus a trailing
comma and closing brace: `x` maps to the string `\x7d`. -/
def wC5 : Json :=
  Json.obj [("evaluations".data, Json.arr []),
            ("x".data, Json.str "\x7d".data)]

end DQC

namespace DQC

/-! ## General lemmas -/

theorem Frac.le_def {a b : Frac} :
    a ≤ b ↔ a.num * (b.den : Int) ≤ b.num * (a.den : Int) := Iff.rfl

theorem Frac.lt_def {a b : Frac} :
    a < b ↔ a.num * (b.den : Int) < b.num * (a.den : Int) := Iff.rfl

theorem frac_8_10_eq : frac 8 10 = ⟨4, 5, by decide⟩ := by decide

theorem frac_5_10_eq : frac 5 10 = ⟨1, 2, by decide⟩ := by decide

theorem Frac.den_pos_int (a : Frac) : (0 : Int) < (a.den : Int) :=
  Int.natCast_pos.mpr a.den_pos

/-! ## C3 — the risk matrix -/

/-- C3: for every status and every confidence in `[0,1]`, `_risk_level`
returns exactly the §4.3 matrix value, thresholds inclusive on the high
end; the four boundary cases hold exactly. -/
theorem c3_risk_matrix_table :
    (∀ c : Frac, Frac.ofNat 0 ≤ c → c ≤ Frac.ofNat 1 →
      ((frac 8 10 ≤ c →
          risk_level .Fail c = .Critical ∧ risk_level .Partial c = .High ∧
          risk_level .Pass c = .Low)
       ∧ (frac 5 10 ≤ c → c < frac 8 10 →
          risk_level .Fail c = .High ∧ risk_level .Partial c = .Medium ∧
          risk_level .Pass c = .Low)
       ∧ (c < frac 5 10 →
          risk_level .Fail c = .Medium ∧ risk_level .Partial c = .Low ∧
          risk_level .Pass c = .Low)))
    ∧ risk_level .Fail (frac 8 10) = .Critical
    ∧ risk_level .Fail (frac 5 10) = .High
    ∧ risk_level .Partial (frac 8 10) = .High
    ∧ risk_level .Partial (frac 5 10) = .Medium := by
  refine ⟨fun c _ _ => ⟨fun h8 => ?_, fun h5 hlt8 => ?_, fun hlt5 => ?_⟩,
    by decide, by decide, by decide, by decide⟩
  · have h5 : frac 5 10 ≤ c := by
      rw [frac_5_10_eq] at *
      rw [frac_8_10_eq] at h8
      rw [Frac.le_def] at *
      have := c.den_pos_int
      simp at *
      omega
    simp [risk_level, h8, h5]
  · have hn8 : ¬ frac 8 10 ≤ c := by
      rw [frac_8_10_eq] at *
      rw [Frac.le_def]
      rw [Frac.lt_def] at hlt8
      have := c.den_pos_int
      simp at *
      omega
    simp [risk_level, hn8, h5]
  · have hn8 : ¬ frac 8 10 ≤ c := by
      rw [frac_8_10_eq]
      rw [frac_5_10_eq] at hlt5
      rw [Frac.le_def]
      rw [Frac.lt_def] at hlt5
      have := c.den_pos_int
      simp at *
      omega
    have hn5 : ¬ frac 5 10 ≤ c := by
      rw [frac_5_10_eq] at *
      rw [Frac.le_def]
      rw [Frac.lt_def] at hlt5
      have := c.den_pos_int
      simp at *
      omega
    simp [risk_level, hn8, hn5]

/-- Witness for C3 at the concrete confidence `0.6`. -/
theorem c3_risk_matrix_table_witness :
    risk_level .Fail (frac 6 10) = .High ∧ risk_level .Partial (frac 6 10) = .Medium := by
  have h := (c3_risk_matrix_table.1 (frac 6 10) (by decide) (by decide)).2.1
    (by decide) (by decide)
  exact ⟨h.1, h.2.1⟩

/-! ## C4 — the empty-retrieval fallback (corrected: the risk level is the
fixed constant `High`, not the matrix value for `(Fail, 0.3)`) -/

/-- C4 counterexample: the no-context fallback finding carries risk `High`,
while the §4.3 matrix maps `(Fail, 0.3)` to `Medium`, so the claim's "risk
level derived from (Fail, 0.3) by the matrix" is false on the code. -/
theorem c4_counterexample :
    (evaluate_item (exItem "A".data) true (.bothFail [])).risk_level = .High
    ∧ risk_level .Fail (frac 3 10) = .Medium
    ∧ (evaluate_item (exItem "A".data) true (.bothFail [])).risk_level ≠
        risk_level .Fail (frac 3 10) := by
  refine ⟨by decide, by decide, by decide⟩

/-- C4 as amended: for every item whose retrieval returns no chunks,
`evaluate_item` returns — independently of the evaluator, which is never
called — a finding with status `Fail`, confidence `0.3`, a recommendation
restating the unmet requirement, and the fixed risk level `High` (which
differs from the matrix value `Medium` for `(Fail, 0.3)`). -/
theorem c4_empty_retrieval_fallback :
    ∀ (item : DQCItem) (o o' : EvalOutcome),
      evaluate_item item true o = evaluate_item item true o'
      ∧ evaluate_item item true o =
          { dqc_item_id := item.item_id
            status := .Fail
            justification :=
              "No relevant content found in the document for this requirement.".data
            risk_level := .High
            recommendation :=
              some ("Ensure the document addresses: ".data ++ item.requirement)
            confidence_score := frac 3 10 }
      ∧ risk_level .Fail (frac 3 10) = .Medium := by
  intro item o o'
  refine ⟨rfl, rfl, by decide⟩

/-! ## C6 — mode selection (code bug: the orchestrator reads two settings
that `Settings` does not declare) -/

/-- C6: the dispatch of `_should_use_long_context` is exactly the claimed
one — `rag` never batches, `long_context` always does, and otherwise the
batch path is chosen exactly when `len(raw_text)/4` is strictly below the
ceiling — but the two configuration attributes it reads,
`evaluation_mode` and `long_context_max_tokens`, are not fields of
`Settings`, so on the shipped configuration class every call raises
`AttributeError` before any path is selected. -/
theorem c6_mode_selection :
    settingsHasField "evaluation_mode".data = false
    ∧ settingsHasField "long_context_max_tokens".data = false
    ∧ (∀ (ceiling : Frac) (rawLen : Nat),
        should_use_long_context "rag".data ceiling rawLen = false)
    ∧ (∀ (ceiling : Frac) (rawLen : Nat),
        should_use_long_context "long_context".data ceiling rawLen = true)
    ∧ (∀ (ceiling : Frac) (rawLen : Nat),
        should_use_long_context "auto".data ceiling rawLen =
          decide (Frac.normalize (rawLen : Int) 4 (by decide) < ceiling)) := by
  refine ⟨by decide, by decide, fun c n => ?_, fun c n => ?_, fun c n => ?_⟩
  · simp [should_use_long_context]
  · simp [should_use_long_context]
  · rw [should_use_long_context, if_neg (by decide), if_neg (by decide)]

/-! ## C7 — the compliance score -/

/-- C7: under both strategies the report's score is
`round(passed/total*100, 1)` with `passed` the number of `Pass` findings
and `total` the number of findings, and `0.0` when `total = 0`; a 5-item
checklist with 4 Pass and 1 Fail scores `80.0`, and an empty checklist
scores `0.0`. -/
theorem c7_compliance_score :
    (∀ (checklist : DQCChecklist) (retrievalEmpty : Nat → Bool)
       (oracle : Nat → EvalOutcome) (summary : List Char),
      let rep := evaluate_checklist checklist retrievalEmpty oracle summary
      let passed := (rep.findings.filter (fun f => decide (f.status = .Pass))).length
      (rep.findings.length = 0 → rep.overall_compliance.score = Frac.ofNat 0)
      ∧ ∀ h : 0 < rep.findings.length,
          rep.overall_compliance.score =
            pyRound1 (Frac.normalize ((passed : Int) * 100) rep.findings.length h))
    ∧ (∀ (checklist : DQCChecklist) (raw : List Char) (rep : ComplianceReport),
        evaluate_checklist_long_context checklist raw = some rep →
        let passed := (rep.findings.filter (fun f => decide (f.status = .Pass))).length
        (rep.findings.length = 0 → rep.overall_compliance.score = Frac.ofNat 0)
        ∧ ∀ h : 0 < rep.findings.length,
            rep.overall_compliance.score =
              pyRound1 (Frac.normalize ((passed : Int) * 100) rep.findings.length h))
    ∧ (evaluate_checklist CL5 (fun _ => false)
        (fun k => if k < 4 then .ok (exResult "X".data .Pass)
                  else .ok (exResult "X".data .Fail)) []).overall_compliance.score
        = Frac.ofNat 80
    ∧ (evaluate_checklist CL0 (fun _ => false) (fun _ => .bothFail [])
        []).overall_compliance.score = Frac.ofNat 0 := by
  have hscore : ∀ (passed total : Nat) (h : 0 < total),
      computeScore passed total =
        pyRound1 (Frac.normalize ((passed : Int) * 100) total h) := by
    intro passed total h
    match total with
    | 0 => exact absurd h (by decide)
    | t + 1 => rfl
  have key : ∀ (checklist : DQCChecklist) (findings : List DQCEvaluationResult)
      (summary : List Char),
      let rep := buildReport checklist findings summary
      let passed := (rep.findings.filter (fun f => decide (f.status = .Pass))).length
      (rep.findings.length = 0 → rep.overall_compliance.score = Frac.ofNat 0)
      ∧ ∀ h : 0 < rep.findings.length,
          rep.overall_compliance.score =
            pyRound1 (Frac.normalize ((passed : Int) * 100) rep.findings.length h) := by
    intro checklist findings summary
    refine ⟨fun h0 => ?_, fun hpos => ?_⟩
    · show computeScore _ findings.length = _
      rw [show findings.length = 0 from h0]
      rfl
    · exact hscore _ _ hpos
  refine ⟨fun checklist re o s => key checklist _ s,
    fun checklist raw rep hrep => ?_, by decide, by decide⟩
  revert hrep
  unfold evaluate_checklist_long_context
  cases hpb : parse_batch_response raw checklist with
  | none => intro hrep; exact absurd hrep (by simp)
  | some pr =>
      obtain ⟨fs0, summaryJ⟩ := pr
      cases summaryJ <;> intro hrep <;> simp at hrep
      rw [← hrep]
      exact key checklist _ _

/-- Witness for C7's universally quantified parts, at a concrete RAG run
and a concrete parsed long-context run. -/
theorem c7_compliance_score_witness :
    ((evaluate_checklist CL1 (fun _ => false) (fun _ => .ok (exResult "A".data .Pass))
        []).overall_compliance.score =
      pyRound1 (Frac.normalize ((1 : Int) * 100) 1 (by decide)))
    ∧ ∃ rep, evaluate_checklist_long_context CL1 rawCleanA = some rep
        ∧ rep.overall_compliance.score =
            pyRound1 (Frac.normalize ((1 : Int) * 100) 1 (by decide)) := by
  constructor
  · have h := (c7_compliance_score.1 CL1 (fun _ => false)
      (fun _ => .ok (exResult "A".data .Pass)) []).2 (by decide)
    exact h.trans (by decide)
  · refine ⟨(evaluate_checklist_long_context CL1 rawCleanA).get (by decide), ?_, ?_⟩
    · simp
    · have h := (c7_compliance_score.2.1 CL1 rawCleanA
        ((evaluate_checklist_long_context CL1 rawCleanA).get (by decide))
        (by simp)).2 (by decide)
      exact h.trans (by decide)

/-! ## C9 — the `aggregation` stage is never entered -/

/-- C9: on both evaluation branches and on every failure point, every stage
the pipeline emits is one of the eight reachable stages, and never the
declared-but-unused `aggregation`. -/
theorem c9_no_aggregation_stage :
    ∀ (useLongContext : Bool) (failAfter : Option Nat) (s : PipelineStage) (p : Nat),
      (s, p) ∈ runTrace useLongContext failAfter →
      s ≠ .aggregation
      ∧ s ∈ [PipelineStage.pending, .ingestion, .preprocessing, .embedding,
             .evaluation, .reporting, .completed, .failed] := by
  have hsucc : ∀ (b : Bool) (x : PipelineStage × Nat), x ∈ successTrace b →
      x.1 ≠ .aggregation
      ∧ x.1 ∈ [PipelineStage.pending, .ingestion, .preprocessing, .embedding,
               .evaluation, .reporting, .completed, .failed] := by
    intro b x hx
    cases b <;> revert hx <;> revert x <;> decide
  intro b failAfter s p hmem
  match failAfter with
  | none => exact hsucc b (s, p) hmem
  | some k =>
      simp only [runTrace, failTrace, List.mem_append] at hmem
      rcases hmem with h | h
      · exact hsucc b (s, p) (List.mem_of_mem_take h)
      · simp at h
        rcases h with ⟨h1, _⟩
        subst h1
        exact ⟨by decide, by decide⟩

/-- Witness for C9 at a concrete trace membership. -/
theorem c9_no_aggregation_stage_witness :
    (PipelineStage.ingestion, 5) ∈ runTrace false none
    ∧ PipelineStage.ingestion ≠ .aggregation := by
  refine ⟨by decide, (c9_no_aggregation_stage false none .ingestion 5 (by decide)).1⟩

/-! ## Shared lemmas about the batch parse and the long-context strategy -/

/-- When a parse attempt succeeds and `evaluations` is iterable,
`_parse_batch_response` returns the converted entries followed by the
fallbacks for unseen checklist ids, plus the raw summary value. -/
theorem parse_batch_some {raw : List Char} {checklist : DQCChecklist} {data : Json}
    {raws : List Json}
    (h1 : try_parse_json raw = some data)
    (h2 : iterElems (jget data "evaluations".data (Json.arr [])) = some raws) :
    parse_batch_response raw checklist =
      some ((raws.filterMap convertEntry) ++
              (checklist.items.filter (fun it =>
                decide (it.item_id ∉
                  (raws.filterMap convertEntry).map (fun f => f.dqc_item_id)))).map
                fallbackMissing,
            jget data "executive_summary".data (Json.str [])) := by
  simp [parse_batch_response, h1, h2]

/-- When no parse attempt succeeds, `_parse_batch_response` returns one
uniform fallback per checklist item, in checklist order. -/
theorem parse_batch_none {raw : List Char} {checklist : DQCChecklist}
    (h1 : try_parse_json raw = none) :
    parse_batch_response raw checklist =
      some (checklist.items.map fallbackUnparsed,
            Json.str "Evaluation completed but results could not be fully parsed.".data) := by
  unfold parse_batch_response
  rw [h1]

/-- The long-context strategy's reports are exactly the risk-overridden
parse results with a string summary. -/
theorem long_context_some {checklist : DQCChecklist} {raw : List Char}
    {rep : ComplianceReport}
    (h : evaluate_checklist_long_context checklist raw = some rep) :
    ∃ fs0 summary, parse_batch_response raw checklist = some (fs0, Json.str summary)
      ∧ rep = buildReport checklist
          (fs0.map (fun f =>
            { f with risk_level := risk_level f.status f.confidence_score }))
          summary := by
  revert h
  unfold evaluate_checklist_long_context
  cases hpb : parse_batch_response raw checklist with
  | none => intro h; exact absurd h (by simp)
  | some pr =>
      obtain ⟨fs0, summaryJ⟩ := pr
      cases summaryJ <;> intro h <;> simp at h
      exact ⟨fs0, _, rfl, h.symm⟩

/-! ## C2 — risk levels recomputed by the matrix (corrected: the RAG-path
fallback findings carry fixed constants instead) -/

/-- C2 counterexample: a report produced by the RAG strategy whose finding
(the empty-retrieval fallback) carries risk `High` while the matrix value
for its `(Fail, 0.3)` pair is `Medium`. -/
theorem c2_counterexample :
    (evaluate_checklist CL1 (fun _ => true) (fun _ => .ok (exResult "A".data .Pass))
        []).findings.map (fun f => (f.risk_level, risk_level f.status f.confidence_score))
      = [(.High, .Medium)]
    ∧ RiskLevel.High ≠ RiskLevel.Medium := by
  exact ⟨by decide, by decide⟩

/-- C2 as amended: in every long-context report the risk level of every
finding (fallbacks included) equals the matrix value for its
`(status, confidence)` pair, and in the RAG path the same holds for every
successfully evaluated item; the two RAG-path fallbacks instead carry the
fixed constants `High` (empty retrieval, matrix value `Medium`) and
`Medium` (both attempts failed, matrix value `Low`). -/
theorem c2_risk_matrix_override :
    (∀ (checklist : DQCChecklist) (raw : List Char) (rep : ComplianceReport),
        evaluate_checklist_long_context checklist raw = some rep →
        ∀ f ∈ rep.findings, f.risk_level = risk_level f.status f.confidence_score)
    ∧ (∀ (item : DQCItem) (r : DQCEvaluationResult),
        (evaluate_item item false (.ok r)).risk_level =
          risk_level r.status r.confidence_score
        ∧ (evaluate_item item false (.retryOk r)).risk_level =
          risk_level r.status r.confidence_score)
    ∧ (∀ (item : DQCItem) (o : EvalOutcome),
        (evaluate_item item true o).risk_level = .High
        ∧ risk_level .Fail (frac 3 10) = .Medium)
    ∧ (∀ (item : DQCItem) (e : List Char),
        (evaluate_item item false (.bothFail e)).risk_level = .Medium
        ∧ risk_level .Partial (Frac.ofNat 0) = .Low) := by
  refine ⟨?_, fun item r => ⟨rfl, rfl⟩, fun item o => ⟨rfl, by decide⟩,
    fun item e => ⟨rfl, by decide⟩⟩
  intro checklist raw rep hrep f hf
  obtain ⟨fs0, summary, _, hrep2⟩ := long_context_some hrep
  subst hrep2
  simp only [buildReport, List.mem_map] at hf
  obtain ⟨g, _, hg⟩ := hf
  subst hg
  rfl

/-- Witness for C2's long-context conjunct at a concrete unparseable
response. -/
theorem c2_risk_matrix_override_witness :
    ∃ rep, evaluate_checklist_long_context CL1 "GARBAGE".data = some rep
      ∧ ∀ f ∈ rep.findings, f.risk_level = risk_level f.status f.confidence_score := by
  refine ⟨(evaluate_checklist_long_context CL1 "GARBAGE".data).get (by decide),
    by simp, ?_⟩
  exact c2_risk_matrix_override.1 CL1 "GARBAGE".data _ (by simp)

/-! ## C1 — one finding per checklist item (corrected: the batch path can
produce extra findings for duplicate or foreign ids, and a successful
evaluator response carries whatever id the model wrote) -/

/-- C1 counterexample: a one-item checklist whose batch response names a
foreign id `B` yields two findings with ids `[B, A]` (not one finding, not
the checklist's id set, not checklist order); and a RAG evaluation whose
evaluator echoes a wrong id yields a finding carrying that id. -/
theorem c1_counterexample :
    ((evaluate_checklist_long_context CL1 rawForeignId).map
        (fun r => r.findings.map (fun f => f.dqc_item_id)))
      = some ["B".data, "A".data]
    ∧ CL1.items.map (fun it => it.item_id) = ["A".data]
    ∧ ((evaluate_checklist_long_context CL1 rawForeignId).map
        (fun r => r.findings.length)) = some 2
    ∧ CL1.items.length = 1
    ∧ (evaluate_checklist CL1 (fun _ => false)
        (fun _ => .ok (exResult "B".data .Pass)) []).findings.map
          (fun f => f.dqc_item_id) = ["B".data] := by
  refine ⟨by decide, by decide, by decide, by decide, by decide⟩

/-- C1 as amended: the RAG strategy always yields exactly one finding per
item, the k-th produced from the k-th item, and carries the items' ids in
checklist order whenever every successful evaluator response echoes the
queried item's id (the fallbacks always do).  The batch strategy yields
exactly one finding per item in checklist order when the response is
unparseable; in general every checklist item id appears among the findings
(each missing one filled by a fallback); and the finding ids are exactly
the checklist's ids, in order, whenever the parsed evaluations carry
exactly the checklist's ids once each in checklist order — entries with
duplicate or foreign ids yield extra findings. -/
theorem c1_findings_per_item :
    (∀ (checklist : DQCChecklist) (retrievalEmpty : Nat → Bool)
        (oracle : Nat → EvalOutcome) (summary : List Char),
        (evaluate_checklist checklist retrievalEmpty oracle summary).findings.length
          = checklist.items.length)
    ∧ (∀ (checklist : DQCChecklist) (retrievalEmpty : Nat → Bool)
        (oracle : Nat → EvalOutcome) (summary : List Char),
        (∀ p ∈ checklist.items.enum, echoesId (oracle p.1) p.2) →
        (evaluate_checklist checklist retrievalEmpty oracle summary).findings.map
            (fun f => f.dqc_item_id)
          = checklist.items.map (fun it => it.item_id))
    ∧ (∀ (checklist : DQCChecklist) (raw : List Char),
        try_parse_json raw = none →
        ∃ rep, evaluate_checklist_long_context checklist raw = some rep
          ∧ rep.findings.map (fun f => f.dqc_item_id)
              = checklist.items.map (fun it => it.item_id)
          ∧ rep.findings.length = checklist.items.length)
    ∧ (∀ (checklist : DQCChecklist) (raw : List Char) (rep : ComplianceReport),
        evaluate_checklist_long_context checklist raw = some rep →
        ∀ it ∈ checklist.items, ∃ f ∈ rep.findings, f.dqc_item_id = it.item_id)
    ∧ (∀ (checklist : DQCChecklist) (raw : List Char) (data : Json)
        (raws : List Json) (rep : ComplianceReport),
        try_parse_json raw = some data →
        iterElems (jget data "evaluations".data (Json.arr [])) = some raws →
        (raws.filterMap convertEntry).map (fun f => f.dqc_item_id)
          = checklist.items.map (fun it => it.item_id) →
        evaluate_checklist_long_context checklist raw = some rep →
        rep.findings.map (fun f => f.dqc_item_id)
            = checklist.items.map (fun it => it.item_id)
          ∧ rep.findings.length = checklist.items.length) := by
  have hlen : ∀ (checklist : DQCChecklist) (findings : List DQCEvaluationResult)
      (summary : List Char),
      (buildReport checklist findings summary).findings = findings := fun _ _ _ => rfl
  refine ⟨?_, ?_, ?_, ?_, ?_⟩
  · intro checklist re o s
    simp [evaluate_checklist, hlen]
  · intro checklist re o s hecho
    show ((checklist.items.enum.map
        (fun p => evaluate_item p.2 (re p.1) (o p.1))).map (fun f => f.dqc_item_id)) = _
    rw [List.map_map]
    have hpt : ∀ p ∈ checklist.items.enum,
        ((fun f => f.dqc_item_id) ∘ (fun p => evaluate_item p.2 (re p.1) (o p.1))) p
          = ((fun it => it.item_id) ∘ Prod.snd) p := by
      intro p hp
      have he := hecho p hp
      simp only [Function.comp]
      cases hre : re p.1 with
      | true => rfl
      | false =>
          cases ho : o p.1 with
          | ok r => rw [ho] at he; exact he
          | retryOk r => rw [ho] at he; exact he
          | bothFail e => rfl
    rw [List.map_congr_left hpt, ← List.map_map]
    rw [List.enum_map_snd]
  · intro checklist raw hnone
    refine ⟨buildReport checklist
        ((checklist.items.map fallbackUnparsed).map
          (fun f => { f with risk_level := risk_level f.status f.confidence_score }))
        "Evaluation completed but results could not be fully parsed.".data, ?_, ?_, ?_⟩
    · unfold evaluate_checklist_long_context
      rw [parse_batch_none hnone]
    · rw [hlen, List.map_map, List.map_map]
      rfl
    · rw [hlen]
      simp
  · intro checklist raw rep hrep it hit
    obtain ⟨fs0, summary, hpb, hrep2⟩ := long_context_some hrep
    subst hrep2
    rw [hlen]
    cases hq : try_parse_json raw with
    | none =>
        rw [parse_batch_none hq] at hpb
        simp only [Option.some.injEq, Prod.mk.injEq] at hpb
        obtain ⟨hfs, _⟩ := hpb
        subst hfs
        exact ⟨_, List.mem_map_of_mem _ (List.mem_map_of_mem _ hit), rfl⟩
    | some data =>
        cases hq2 : iterElems (jget data "evaluations".data (Json.arr [])) with
        | none =>
            have hnone : parse_batch_response raw checklist = none := by
              simp [parse_batch_response, hq, hq2]
            rw [hnone] at hpb
            exact absurd hpb (by simp)
        | some raws =>
            rw [parse_batch_some hq hq2] at hpb
            simp only [Option.some.injEq, Prod.mk.injEq] at hpb
            obtain ⟨hfs, _⟩ := hpb
            subst hfs
            by_cases hid : it.item_id ∈
                (raws.filterMap convertEntry).map (fun f => f.dqc_item_id)
            · obtain ⟨g, hg, hgid⟩ := List.mem_map.mp hid
              refine ⟨_, List.mem_map_of_mem _ (List.mem_append_left _ hg), hgid⟩
            · refine ⟨_, List.mem_map_of_mem _ (List.mem_append_right _
                (List.mem_map_of_mem _ (List.mem_filter.mpr
                  ⟨hit, decide_eq_true hid⟩))), rfl⟩
  · intro checklist raw data raws rep h1 h2 hids hrep
    obtain ⟨fs0, summary, hpb, hrep2⟩ := long_context_some hrep
    subst hrep2
    rw [parse_batch_some h1 h2] at hpb
    simp only [Option.some.injEq, Prod.mk.injEq] at hpb
    obtain ⟨hfs, _⟩ := hpb
    have hfall : checklist.items.filter (fun it =>
        decide (it.item_id ∉
          (raws.filterMap convertEntry).map (fun f => f.dqc_item_id))) = [] := by
      rw [List.filter_eq_nil]
      intro it hit
      have hin : it.item_id ∈ (raws.filterMap convertEntry).map (fun f => f.dqc_item_id) := by
        rw [hids]
        exact List.mem_map_of_mem _ hit
      exact fun hd => (of_decide_eq_true hd) hin
    rw [hfall] at hfs
    simp only [List.map_nil, List.append_nil] at hfs
    subst hfs
    rw [hlen]
    constructor
    · rw [List.map_map]
      exact hids
    · have := congrArg List.length hids
      simpa using this

/-! ## C10 — a malformed batch entry is skipped alone -/

/-- C10: when the batch response parses to an object whose `evaluations`
value is an array, parsing never aborts; each entry that converts is in the
output, a malformed entry contributes nothing (dropping it from the array
leaves the converted list unchanged), a checklist item whose id is absent
from the converted entries receives its `Partial`/confidence-0 fallback,
missing fields of a well-formed entry take the defaults (status `Partial`,
confidence `0.5`, empty justification and evidence), and an invalid status
string or an out-of-range confidence makes only that entry unconvertible. -/
theorem c10_malformed_entry_isolation :
    (∀ (raw : List Char) (checklist : DQCChecklist) (data : Json) (xs : List Json),
        try_parse_json raw = some data →
        jget data "evaluations".data (Json.arr []) = Json.arr xs →
        parse_batch_response raw checklist =
          some ((xs.filterMap convertEntry) ++
                  (checklist.items.filter (fun it =>
                    decide (it.item_id ∉
                      (xs.filterMap convertEntry).map (fun f => f.dqc_item_id)))).map
                    fallbackMissing,
                jget data "executive_summary".data (Json.str [])))
    ∧ (∀ (pre post : List Json) (bad : Json), convertEntry bad = none →
        (pre ++ bad :: post).filterMap convertEntry
          = (pre ++ post).filterMap convertEntry)
    ∧ (∀ (raw : List Char) (checklist : DQCChecklist) (data : Json) (xs : List Json)
        (out : List DQCEvaluationResult × Json) (x : Json) (f : DQCEvaluationResult),
        try_parse_json raw = some data →
        jget data "evaluations".data (Json.arr []) = Json.arr xs →
        parse_batch_response raw checklist = some out →
        x ∈ xs → convertEntry x = some f → f ∈ out.1)
    ∧ (∀ (raw : List Char) (checklist : DQCChecklist) (data : Json) (xs : List Json)
        (out : List DQCEvaluationResult × Json) (it : DQCItem),
        try_parse_json raw = some data →
        jget data "evaluations".data (Json.arr []) = Json.arr xs →
        parse_batch_response raw checklist = some out →
        it ∈ checklist.items →
        it.item_id ∉ (xs.filterMap convertEntry).map (fun f => f.dqc_item_id) →
        fallbackMissing it ∈ out.1)
    ∧ (∀ it : DQCItem, (fallbackMissing it).dqc_item_id = it.item_id
        ∧ (fallbackMissing it).status = .Partial
        ∧ (fallbackMissing it).confidence_score = Frac.ofNat 0)
    ∧ (∀ s : List Char, convertEntry (Json.obj [("dqc_item_id".data, Json.str s)]) =
        some { dqc_item_id := s, status := .Partial, justification := [],
               evidence_quotes := [], risk_level := .Medium, recommendation := none,
               confidence_score := frac 1 2, sections_reviewed := [] })
    ∧ (∀ (s : List Char) (q : Frac), ¬(Frac.ofNat 0 ≤ q ∧ q ≤ Frac.ofNat 1) →
        convertEntry (Json.obj [("dqc_item_id".data, Json.str s),
          ("confidence_score".data, Json.num q)]) = none)
    ∧ (∀ (s bogus : List Char), DQCStatus.ofString bogus = none →
        convertEntry (Json.obj [("dqc_item_id".data, Json.str s),
          ("status".data, Json.str bogus)]) = none) := by
  have hmain : ∀ (raw : List Char) (checklist : DQCChecklist) (data : Json)
      (xs : List Json),
      try_parse_json raw = some data →
      jget data "evaluations".data (Json.arr []) = Json.arr xs →
      parse_batch_response raw checklist =
        some ((xs.filterMap convertEntry) ++
                (checklist.items.filter (fun it =>
                  decide (it.item_id ∉
                    (xs.filterMap convertEntry).map (fun f => f.dqc_item_id)))).map
                  fallbackMissing,
              jget data "executive_summary".data (Json.str [])) := by
    intro raw checklist data xs h1 hj
    exact parse_batch_some h1 (by rw [hj]; rfl)
  refine ⟨hmain, ?_, ?_, ?_, fun it => ⟨rfl, rfl, rfl⟩, fun s => rfl, ?_, ?_⟩
  · intro pre post bad h
    simp [List.filterMap_append, List.filterMap_cons, h]
  · intro raw checklist data xs out x f h1 hj hout hx hcf
    rw [hmain raw checklist data xs h1 hj] at hout
    simp only [Option.some.injEq] at hout
    rw [← hout]
    exact List.mem_append_left _ (List.mem_filterMap.mpr ⟨x, hx, hcf⟩)
  · intro raw checklist data xs out it h1 hj hout hit hid
    rw [hmain raw checklist data xs h1 hj] at hout
    simp only [Option.some.injEq] at hout
    rw [← hout]
    exact List.mem_append_right _
      (List.mem_map_of_mem _ (List.mem_filter.mpr ⟨hit, decide_eq_true hid⟩))
  · intro s q hq
    simp only [convertEntry, jget, List.find?]
    simp [pyFloat, hq]
  · intro s bogus hb
    simp only [convertEntry, jget, List.find?]
    simp [hb]

/-- Witness for C10 at concrete entries: dropping a malformed entry leaves
the converted list unchanged, and an out-of-range confidence is skipped. -/
theorem c10_malformed_entry_isolation_witness :
    ([entryA, Json.str "bad".data] : List Json).filterMap convertEntry
      = ([entryA] : List Json).filterMap convertEntry
    ∧ convertEntry (Json.obj [("dqc_item_id".data, Json.str "A".data),
        ("confidence_score".data, Json.num (frac 3 2))]) = none := by
  constructor
  · have h := c10_malformed_entry_isolation.2.1 [entryA] [] (Json.str "bad".data)
      (by decide)
    simpa using h
  · exact c10_malformed_entry_isolation.2.2.2.2.2.2.1 "A".data (frac 3 2) (by decide)

/-! ## C8 — the overlap carry respects the overlap token budget -/

theorem carryLoop_spec (tokens : List Char → Nat) (overlap : Nat) :
    ∀ (rev carry : List (List Char)) (tok : Nat),
      tok = (carry.map tokens).sum → tok ≤ overlap →
      ∃ used : List (List Char),
        (carryLoop tokens overlap rev carry tok).1 = used.reverse ++ carry
        ∧ used.IsPrefix rev
        ∧ (carryLoop tokens overlap rev carry tok).2 =
            ((carryLoop tokens overlap rev carry tok).1.map tokens).sum
        ∧ (carryLoop tokens overlap rev carry tok).2 ≤ overlap := by
  intro rev
  induction rev with
  | nil =>
      intro carry tok h1 h2
      exact ⟨[], by simp [carryLoop], List.nil_prefix, by simp [carryLoop, h1],
        by simpa [carryLoop] using h2⟩
  | cons s r ih =>
      intro carry tok h1 h2
      by_cases hc : overlap < tok + tokens s
      · simp only [carryLoop, if_pos hc]
        exact ⟨[], by simp, List.nil_prefix, by simpa using h1, h2⟩
      · simp only [carryLoop, if_neg hc]
        obtain ⟨used, hu1, hu2, hu3, hu4⟩ := ih (s :: carry) (tok + tokens s)
          (by simp [h1]; omega) (by omega)
        refine ⟨s :: used, ?_, List.cons_prefix_cons.mpr ⟨rfl, hu2⟩, hu3, hu4⟩
        rw [hu1]
        simp

theorem overlap_carry_spec (tokens : List Char → Nat) (current : List (List Char))
    (overlap : Nat) :
    (overlap_carry tokens current overlap).1.IsSuffix current
    ∧ ((overlap_carry tokens current overlap).1.map tokens).sum ≤ overlap
    ∧ (overlap_carry tokens current overlap).2 =
        ((overlap_carry tokens current overlap).1.map tokens).sum := by
  obtain ⟨used, h1, h2, h3, h4⟩ := carryLoop_spec tokens overlap current.reverse [] 0
    (by simp) (by simp)
  have hres : (overlap_carry tokens current overlap).1 = used.reverse := by
    show (carryLoop tokens overlap current.reverse [] 0).1 = used.reverse
    rw [h1]
    simp
  have heq : (used.reverse.map tokens).sum =
      (carryLoop tokens overlap current.reverse [] 0).2 := by
    rw [h3, h1]
    simp
  refine ⟨?_, ?_, ?_⟩
  · rw [hres]
    have h2' : (used.reverse).reverse.IsPrefix current.reverse := by simpa using h2
    have := List.reverse_prefix.mp h2'
    simpa using this
  · rw [hres, heq]
    exact h4
  · show (carryLoop tokens overlap current.reverse [] 0).2 = _
    rw [hres, heq]

theorem wordLoopAnn_fst (tokens : List Char → Nat) (maxT : Nat) :
    ∀ (ws : List (List Char)) (chunks : List (List (List Char) × Nat))
      (buf : List (List Char)) (tok : Nat),
      (wordLoopAnn tokens maxT ws chunks buf tok).1.map Prod.fst =
        (wordLoop tokens maxT ws (chunks.map Prod.fst) buf tok).1
      ∧ (wordLoopAnn tokens maxT ws chunks buf tok).2 =
        (wordLoop tokens maxT ws (chunks.map Prod.fst) buf tok).2 := by
  intro ws
  induction ws with
  | nil => intro chunks buf tok; exact ⟨rfl, rfl⟩
  | cons w ws ih =>
      intro chunks buf tok
      by_cases hc : maxT < tok + tokens w ∧ ¬buf.isEmpty
      · simp only [wordLoopAnn, wordLoop, if_pos hc]
        have := ih (chunks ++ [(buf, 0)]) [w] (tokens w)
        simpa using this
      · simp only [wordLoopAnn, wordLoop, if_neg hc]
        exact ih chunks (buf ++ [w]) (tok + tokens w)

theorem splitLoopAnn_fst (tokens : List Char → Nat) (maxT overlap : Nat) :
    ∀ (sents : List (List Char)) (chunks : List (List (List Char) × Nat))
      (cur : List (List Char)) (tok k : Nat),
      (splitLoopAnn tokens maxT overlap sents chunks cur tok k).map Prod.fst =
        splitLoop tokens maxT overlap sents (chunks.map Prod.fst) cur tok := by
  intro sents
  induction sents with
  | nil =>
      intro chunks cur tok k
      by_cases hc : cur.isEmpty
      · simp [splitLoopAnn, splitLoop, hc]
      · simp [splitLoopAnn, splitLoop, hc]
  | cons s rest ih =>
      intro chunks cur tok k
      by_cases h1 : maxT < tokens s
      · simp only [splitLoopAnn, splitLoop, if_pos h1]
        by_cases h2 : cur.isEmpty
        · simp only [if_pos h2]
          obtain ⟨hw1, hw2⟩ := wordLoopAnn_fst tokens maxT (pySplitWs s) chunks [] 0
          by_cases h3 : (wordLoopAnn tokens maxT (pySplitWs s) chunks [] 0).2.1.isEmpty
          · rw [if_pos h3, if_pos (by rw [← hw2]; exact h3)]
            rw [ih, hw1]
          · rw [if_neg h3, if_neg (by rw [← hw2]; exact h3)]
            rw [ih, hw1, hw2]
        · simp only [if_neg h2]
          obtain ⟨hw1, hw2⟩ := wordLoopAnn_fst tokens maxT (pySplitWs s)
            (chunks ++ [(cur, k)]) [] 0
          have hmap : (chunks ++ [(cur, k)]).map Prod.fst = chunks.map Prod.fst ++ [cur] := by
            simp
          rw [hmap] at hw1 hw2
          by_cases h3 : (wordLoopAnn tokens maxT (pySplitWs s)
              (chunks ++ [(cur, k)]) [] 0).2.1.isEmpty
          · rw [if_pos h3, if_pos (by rw [← hw2]; exact h3)]
            rw [ih, hw1]
          · rw [if_neg h3, if_neg (by rw [← hw2]; exact h3)]
            rw [ih, hw1, hw2]
      · simp only [splitLoopAnn, splitLoop, if_neg h1]
        by_cases h2 : maxT < tok + tokens s ∧ ¬cur.isEmpty
        · simp only [if_pos h2]
          rw [ih]
          simp
        · simp only [if_neg h2]
          exact ih chunks (cur ++ [s]) (tok + tokens s) k

/-- The overlap relation holds unconditionally towards a chunk with no
carried prefix. -/
theorem carryRel_zero (tokens : List Char → Nat) (overlap : Nat)
    (a : List (List Char) × Nat) (c : List (List Char)) :
    carryRel tokens overlap a (c, 0) := by
  refine ⟨by simp, by simp, Or.inl rfl⟩

theorem chain'_concat {α : Type} {R : α → α → Prop} {l : List α} {x : α}
    (hl : List.Chain' R l) (hx : ∀ a, l.getLast? = some a → R a x) :
    List.Chain' R (l ++ [x]) := by
  rw [List.chain'_append]
  refine ⟨hl, List.chain'_singleton x, ?_⟩
  intro a ha y hy
  simp at hy
  subst hy
  exact hx a ha

theorem wordLoopAnn_chain (tokens : List Char → Nat) (maxT overlap : Nat) :
    ∀ (ws : List (List Char)) (chunks : List (List (List Char) × Nat))
      (buf : List (List Char)) (tok : Nat),
      List.Chain' (carryRel tokens overlap) chunks →
      List.Chain' (carryRel tokens overlap)
        (wordLoopAnn tokens maxT ws chunks buf tok).1 := by
  intro ws
  induction ws with
  | nil => intro chunks buf tok h; exact h
  | cons w ws ih =>
      intro chunks buf tok h
      by_cases hc : maxT < tok + tokens w ∧ ¬buf.isEmpty
      · simp only [wordLoopAnn, if_pos hc]
        exact ih _ _ _ (chain'_concat h (fun a _ => carryRel_zero tokens overlap a buf))
      · simp only [wordLoopAnn, if_neg hc]
        exact ih _ _ _ h

theorem wordLoopAnn_buf_ne (tokens : List Char → Nat) (maxT : Nat) :
    ∀ (ws : List (List Char)) (chunks : List (List (List Char) × Nat))
      (buf : List (List Char)) (tok : Nat),
      (ws = [] → ¬buf.isEmpty) →
      ¬(wordLoopAnn tokens maxT ws chunks buf tok).2.1.isEmpty := by
  intro ws
  induction ws with
  | nil => intro chunks buf tok h; exact h rfl
  | cons w ws ih =>
      intro chunks buf tok _
      by_cases hc : maxT < tok + tokens w ∧ ¬buf.isEmpty
      · simp only [wordLoopAnn, if_pos hc]
        exact ih _ _ _ (fun _ => by simp)
      · simp only [wordLoopAnn, if_neg hc]
        exact ih _ _ _ (fun _ => by simp)

theorem splitLoopAnn_chain (tokens : List Char → Nat) (maxT overlap : Nat) :
    ∀ (sents : List (List Char)) (chunks : List (List (List Char) × Nat))
      (cur : List (List Char)) (tok k : Nat),
      List.Chain' (carryRel tokens overlap) chunks →
      k ≤ cur.length →
      (∀ a, chunks.getLast? = some a → carryRel tokens overlap a (cur, k)) →
      List.Chain' (carryRel tokens overlap)
        (splitLoopAnn tokens maxT overlap sents chunks cur tok k) := by
  intro sents
  induction sents with
  | nil =>
      intro chunks cur tok k hch hk hlast
      by_cases hc : cur.isEmpty
      · simpa [splitLoopAnn, hc] using hch
      · simp only [splitLoopAnn, if_neg hc]
        exact chain'_concat hch hlast
  | cons s rest ih =>
      intro chunks cur tok k hch hk hlast
      by_cases h1 : maxT < tokens s
      · simp only [splitLoopAnn, if_pos h1]
        by_cases h2 : cur.isEmpty
        · simp only [if_pos h2]
          have hwch := wordLoopAnn_chain tokens maxT overlap (pySplitWs s) chunks [] 0 hch
          by_cases h3 : (wordLoopAnn tokens maxT (pySplitWs s) chunks [] 0).2.1.isEmpty
          · rw [if_pos h3]
            -- no word was produced, so no word chunk was emitted and the
            -- buffer is unchanged
            cases hws : pySplitWs s with
            | nil =>
                simp only [wordLoopAnn]
                exact ih _ _ _ _ hch hk hlast
            | cons w ws =>
                rw [hws] at h3
                exact absurd h3
                  (wordLoopAnn_buf_ne tokens maxT (w :: ws) chunks [] 0 (by simp))
          · rw [if_neg h3]
            exact ih _ _ _ _ hwch (by simp) (fun a _ => carryRel_zero tokens overlap a _)
        · simp only [if_neg h2]
          have hch2 : List.Chain' (carryRel tokens overlap) (chunks ++ [(cur, k)]) :=
            chain'_concat hch hlast
          have hwch := wordLoopAnn_chain tokens maxT overlap (pySplitWs s)
            (chunks ++ [(cur, k)]) [] 0 hch2
          obtain ⟨hsfx, hsum, _⟩ := overlap_carry_spec tokens cur overlap
          by_cases h3 : (wordLoopAnn tokens maxT (pySplitWs s)
              (chunks ++ [(cur, k)]) [] 0).2.1.isEmpty
          · rw [if_pos h3]
            cases hws : pySplitWs s with
            | nil =>
                simp only [wordLoopAnn]
                refine ih _ _ _ _ hch2 (le_refl _) ?_
                intro a ha
                have ha2 : (cur, k) = a := by
                  have := ha
                  rw [List.getLast?_concat] at this
                  exact Option.some.inj this
                subst ha2
                refine ⟨?_, ?_, Or.inr ?_⟩ <;> rw [List.take_length]
                · exact hsfx
                · exact hsum
            | cons w ws =>
                rw [hws] at h3
                exact absurd h3
                  (wordLoopAnn_buf_ne tokens maxT (w :: ws) _ [] 0 (by simp))
          · rw [if_neg h3]
            exact ih _ _ _ _ hwch (by simp) (fun a _ => carryRel_zero tokens overlap a _)
      · simp only [splitLoopAnn, if_neg h1]
        by_cases h2 : maxT < tok + tokens s ∧ ¬cur.isEmpty
        · simp only [if_pos h2]
          obtain ⟨hsfx, hsum, _⟩ := overlap_carry_spec tokens cur overlap
          refine ih _ _ _ _ (chain'_concat hch hlast) (by simp) ?_
          intro a ha
          have ha2 : (cur, k) = a := by simpa using ha
          subst ha2
          set co := overlap_carry tokens cur overlap
          refine ⟨?_, ?_, Or.inr ?_⟩
          · rw [List.take_append_of_le_length (le_refl co.1.length), List.take_length]
            exact hsfx
          · rw [List.take_append_of_le_length (le_refl co.1.length), List.take_length]
            exact hsum
          · rw [List.take_append_of_le_length (le_refl co.1.length), List.take_length]
        · simp only [if_neg h2]
          refine ih _ _ _ _ hch (by simp; omega) ?_
          intro a ha
          obtain ⟨hfx, hsm, hd⟩ := hlast a ha
          have htk : (cur ++ [s]).take k = cur.take k :=
            List.take_append_of_le_length hk
          exact ⟨by rw [htk]; exact hfx, by rw [htk]; exact hsm, by rw [htk]; exact hd⟩

/-- C8: the carry buffer — the trailing sentences of a flushed chunk that
reappear at the start of the next chunk — always totals at most the
configured overlap token budget.  Stated for an arbitrary token counter,
hence for the source's tokenizer in particular: (i) `_overlap_carry`
returns a suffix of the flushed buffer whose token total is within the
budget (its returned count being exactly that total); (ii) the annotated
split projects onto `_split_text`; (iii) along the emitted chunks of one
section, each chunk's carried prefix is a suffix of the previous chunk,
totals at most the budget, and is exactly the previous chunk's
`_overlap_carry` whenever it is nonempty (word-split chunks carry
nothing). -/
theorem c8_overlap_budget :
    (∀ (tokens : List Char → Nat) (current : List (List Char)) (overlap : Nat),
        (overlap_carry tokens current overlap).1.IsSuffix current
        ∧ ((overlap_carry tokens current overlap).1.map tokens).sum ≤ overlap
        ∧ (overlap_carry tokens current overlap).2 =
            ((overlap_carry tokens current overlap).1.map tokens).sum)
    ∧ (∀ (tokens : List Char → Nat) (maxT overlap : Nat) (sents : List (List Char)),
        split_text_sents tokens maxT overlap sents
          = (split_text_ann tokens maxT overlap sents).map Prod.fst
        ∧ split_text tokens maxT overlap sents
          = (split_text_sents tokens maxT overlap sents).map joinSp)
    ∧ (∀ (tokens : List Char → Nat) (maxT overlap : Nat) (sents : List (List Char)),
        List.Chain' (carryRel tokens overlap)
          (split_text_ann tokens maxT overlap sents)) := by
  refine ⟨fun tokens current overlap => overlap_carry_spec tokens current overlap,
    fun tokens maxT overlap sents => ⟨?_, rfl⟩,
    fun tokens maxT overlap sents => ?_⟩
  · exact (splitLoopAnn_fst tokens maxT overlap sents [] [] 0 0).symm
  · exact splitLoopAnn_chain tokens maxT overlap sents [] [] 0 0 (by simp)
      (by simp) (fun a ha => by simp at ha)

/-- Witness for C1's batch-path conjuncts at a clean concrete response. -/
theorem c1_findings_per_item_witness :
    ∃ rep, evaluate_checklist_long_context CL1 rawCleanA = some rep
      ∧ rep.findings.map (fun f => f.dqc_item_id)
          = CL1.items.map (fun it => it.item_id)
      ∧ rep.findings.length = CL1.items.length := by
  refine ⟨(evaluate_checklist_long_context CL1 rawCleanA).get (by decide), by simp, ?_⟩
  exact c1_findings_per_item.2.2.2.2 CL1 rawCleanA
    ((try_parse_json rawCleanA).get (by decide))
    ((iterElems (jget ((try_parse_json rawCleanA).get (by decide))
        "evaluations".data (Json.arr []))).get (by decide))
    _ (by simp) (by simp) (by decide) (by simp)

/-! ## C5 groundwork: whitespace and Python-string lemmas -/

theorem skipWs_cons_ws {c : Char} {r : List Char} (h : isJsonWs c = true) :
    skipWs (c :: r) = skipWs r := by
  simp [skipWs, List.dropWhile_cons, h]

theorem skipWs_cons_not {c : Char} {r : List Char} (h : isJsonWs c = false) :
    skipWs (c :: r) = c :: r := by
  simp [skipWs, List.dropWhile_cons, h]

theorem skipWs_decomp (l : List Char) :
    ∃ w, l = w ++ skipWs l ∧ ∀ c ∈ w, isJsonWs c = true := by
  induction l with
  | nil => exact ⟨[], rfl, by simp⟩
  | cons c r ih =>
      cases h : isJsonWs c with
      | true =>
          obtain ⟨w, hw1, hw2⟩ := ih
          refine ⟨c :: w, ?_, ?_⟩
          · rw [skipWs_cons_ws h, List.cons_append, ← hw1]
          · intro x hx
            rcases List.mem_cons.mp hx with h1 | h1
            · rw [h1]; exact h
            · exact hw2 x h1
      | false => exact ⟨[], by rw [skipWs_cons_not h]; rfl, by simp⟩

theorem dropWhile_append_all {p : Char → Bool} {b : List Char} (y : List Char)
    (hb : ∀ c ∈ b, p c = true) :
    List.dropWhile p (b ++ y) = List.dropWhile p y := by
  induction b with
  | nil => rfl
  | cons c r ih =>
      rw [List.cons_append, List.dropWhile_cons, if_pos (hb c (by simp))]
      exact ih (fun c hc => hb c (by simp [hc]))

theorem dropWhile_append_ne {p : Char → Bool} {a : List Char} (y : List Char)
    (ha : List.dropWhile p a ≠ []) :
    List.dropWhile p (a ++ y) = List.dropWhile p a ++ y := by
  induction a with
  | nil => exact absurd rfl ha
  | cons c r ih =>
      cases h : p c with
      | true =>
          rw [List.dropWhile_cons, if_pos h] at ha
          simp only [List.cons_append, List.dropWhile_cons, h, if_true]
          exact ih ha
      | false =>
          simp only [List.cons_append, List.dropWhile_cons, h]
          simp

theorem pyStrip_append_ws (a b : List Char) (hb : ∀ c ∈ b, isPyWs c = true) :
    pyStrip (a ++ b) = pyStrip a := by
  unfold pyStrip
  cases ha : List.dropWhile isPyWs a with
  | nil =>
      have ha' : ∀ c ∈ a, isPyWs c = true := by
        rw [← List.dropWhile_eq_nil_iff]
        exact ha
      rw [dropWhile_append_all b ha',
        show List.dropWhile isPyWs b = [] from List.dropWhile_eq_nil_iff.mpr hb]
  | cons x t =>
      rw [dropWhile_append_ne b (by rw [ha]; simp), ha]
      rw [List.reverse_append]
      rw [dropWhile_append_all _ (fun c hc => hb c (List.mem_reverse.mp hc))]

theorem pyStrip_no_ws {l : List Char}
    (h1 : ∀ c, l.head? = some c → isPyWs c = false)
    (h2 : ∀ c, l.getLast? = some c → isPyWs c = false) : pyStrip l = l := by
  cases l with
  | nil => rfl
  | cons c r =>
      unfold pyStrip
      rw [List.dropWhile_cons, if_neg (by simp [h1 c rfl])]
      cases hrev : (c :: r).reverse with
      | nil => exact absurd hrev (by simp)
      | cons x t =>
          have hx : (c :: r).getLast? = some x := by
            rw [← List.head?_reverse, hrev]
            rfl
          have hxw : isPyWs x = false := h2 x hx
          rw [List.dropWhile_cons, if_neg (by simp [hxw]), ← hrev,
            List.reverse_reverse]

theorem pySplitNl_ne_nil (l : List Char) : pySplitNl l ≠ [] := by
  cases l with
  | nil => simp [pySplitNl]
  | cons c r =>
      unfold pySplitNl
      by_cases h : c = '\n'
      · simp [h]
      · rw [if_neg h]
        cases pySplitNl r <;> simp

theorem pySplitNl_nonl {a : List Char} (b : List Char) (ha : '\n' ∉ a) :
    pySplitNl (a ++ '\n' :: b) = a :: pySplitNl b := by
  induction a with
  | nil =>
      show pySplitNl ('\n' :: b) = [] :: pySplitNl b
      simp [pySplitNl]
  | cons c r ih =>
      have hc : c ≠ '\n' := fun h => ha (by simp [h])
      rw [List.cons_append]
      show pySplitNl (c :: (r ++ '\n' :: b)) = _
      simp only [pySplitNl]
      rw [if_neg hc, ih (fun h => ha (by simp [h]))]

theorem pySplitNl_no_nl {t : List Char} (h : '\n' ∉ t) : pySplitNl t = [t] := by
  induction t with
  | nil => rfl
  | cons c r ih =>
      have hc : c ≠ '\n' := fun hh => h (by simp [hh])
      unfold pySplitNl
      rw [if_neg hc, ih (fun hh => h (by simp [hh]))]

theorem joinNl_split (l : List Char) : pyJoinNl (pySplitNl l) = l := by
  induction l with
  | nil => rfl
  | cons c r ih =>
      unfold pySplitNl
      by_cases h : c = '\n'
      · rw [if_pos h]
        cases hr : pySplitNl r with
        | nil => exact absurd hr (pySplitNl_ne_nil r)
        | cons m ms =>
            show pyJoinNl ([] :: m :: ms) = c :: r
            rw [show pyJoinNl ([] :: m :: ms) = [] ++ '\n' :: pyJoinNl (m :: ms) from rfl]
            rw [← hr, ih, h]
            rfl
      · rw [if_neg h]
        cases hr : pySplitNl r with
        | nil => exact absurd hr (pySplitNl_ne_nil r)
        | cons m ms =>
            cases ms with
            | nil =>
                show pyJoinNl [c :: m] = c :: r
                show c :: m = c :: r
                rw [← ih, hr]
                rfl
            | cons y ys =>
                show pyJoinNl ((c :: m) :: y :: ys) = c :: r
                rw [show pyJoinNl ((c :: m) :: y :: ys)
                    = (c :: m) ++ '\n' :: pyJoinNl (y :: ys) from rfl]
                rw [← ih, hr]
                rfl

theorem dropFirstLine_of {a : List Char} (b : List Char) (ha : '\n' ∉ a) :
    pyJoinNl ((pySplitNl (a ++ '\n' :: b)).drop 1) = b := by
  rw [pySplitNl_nonl b ha]
  simp [joinNl_split]

theorem exists_first_nl (t : List Char) :
    '\n' ∉ t ∨ ∃ a b, t = a ++ '\n' :: b ∧ '\n' ∉ a := by
  induction t with
  | nil => exact Or.inl (by simp)
  | cons c r ih =>
      by_cases hc : c = '\n'
      · exact Or.inr ⟨[], r, by rw [hc]; rfl, by simp⟩
      · rcases ih with h | ⟨a, b, hab, hna⟩
        · exact Or.inl (by simp [h]; exact fun he => hc he.symm)
        · exact Or.inr ⟨c :: a, b, by rw [hab]; rfl,
            by simp; exact ⟨fun he => hc he.symm, hna⟩⟩

theorem joinDrop_suffix (t : List Char) :
    (pyJoinNl ((pySplitNl t).drop 1)).IsSuffix t := by
  rcases exists_first_nl t with h | ⟨a, b, hab, hna⟩
  · rw [pySplitNl_no_nl h]
    exact List.nil_suffix
  · rw [hab, dropFirstLine_of b hna]
    exact ⟨a ++ ['\n'], by simp⟩

theorem matchesAt_concat (p x : List Char) : matchesAt p (x ++ p) x.length = true := by
  unfold matchesAt
  rw [List.drop_left]
  rw [List.isPrefixOf_iff_prefix]

theorem pyRfind_concat (p x : List Char) (hp : p ≠ []) :
    pyRfind p (x ++ p) = some x.length := by
  unfold pyRfind
  rw [if_neg (by simp)]
  have hidx : (x ++ p).length - p.length = x.length := by simp
  rw [hidx]
  cases hL : x.length with
  | zero =>
      show (if matchesAt p (x ++ p) 0 then some 0 else none) = some 0
      rw [if_pos (by rw [← hL]; exact matchesAt_concat p x)]
  | succ n =>
      show (if matchesAt p (x ++ p) (n + 1) then some (n + 1)
            else pyRfindFrom p (x ++ p) n) = some (n + 1)
      rw [if_pos (by rw [← hL]; exact matchesAt_concat p x)]

theorem fence_notPrefix {c : Char} (hc : c ≠ btick) (x : List Char) :
    fence3.isPrefixOf (c :: x) = false := by
  have hb : (btick == c) = false := by
    rw [beq_eq_false_iff_ne]
    exact fun he => hc he.symm
  simp [fence3, List.isPrefixOf, hb]

theorem fence_notSuffix {c : Char} (hc : c ≠ btick) (x : List Char) :
    fence3.isSuffixOf (x ++ [c]) = false := by
  have hb : (btick == c) = false := by
    rw [beq_eq_false_iff_ne]
    exact fun he => hc he.symm
  simp [List.isSuffixOf, fence3, List.isPrefixOf, hb]

theorem fence_prefix_fenceWrap (s : List Char) :
    fence3.isPrefixOf (fenceWrap s) = true := by
  simp [fenceWrap, fence3, List.isPrefixOf]

theorem fence_suffix_concat (x : List Char) :
    fence3.isSuffixOf (x ++ fence3) = true := by
  simp [List.isSuffixOf, fence3, List.isPrefixOf]

theorem fenceWrap_head (s : List Char) : (fenceWrap s).head? = some btick := rfl

theorem fenceWrap_last (s : List Char) : (fenceWrap s).getLast? = some btick := by
  rw [show fenceWrap s = (fence3 ++ "json\n".data ++ s ++ ['\n', btick, btick]) ++ [btick]
      from by simp [fenceWrap, fence3]]
  exact List.getLast?_concat _

theorem pyStrip_fenceWrap (s : List Char) : pyStrip (fenceWrap s) = fenceWrap s := by
  apply pyStrip_no_ws
  · intro c hc
    rw [fenceWrap_head] at hc
    simp only [Option.some.injEq] at hc
    rw [← hc]
    decide
  · intro c hc
    rw [fenceWrap_last] at hc
    simp only [Option.some.injEq] at hc
    rw [← hc]
    decide

theorem strip_fences_wrap (s : List Char) :
    strip_markdown_fences (fenceWrap s) = pyStrip s := by
  have hshape : fenceWrap s = (fence3 ++ ['j', 's', 'o', 'n']) ++ '\n' :: (s ++ '\n' :: fence3) := by
    simp [fenceWrap, fence3, show "json\n".data = ['j', 's', 'o', 'n', '\n'] from rfl]
  have h1 : pyStrip (fenceWrap s) = fenceWrap s := pyStrip_fenceWrap s
  have h2 : pyJoinNl ((pySplitNl (fenceWrap s)).drop 1) = s ++ '\n' :: fence3 := by
    rw [hshape]
    exact dropFirstLine_of _ (by decide)
  have h5 : fence3.isSuffixOf (s ++ '\n' :: fence3) = true := by
    rw [show s ++ '\n' :: fence3 = (s ++ ['\n']) ++ fence3 from by simp]
    exact fence_suffix_concat _
  have h3 : pyRfind fence3 (s ++ '\n' :: fence3) = some ((s ++ ['\n']).length) := by
    rw [show s ++ '\n' :: fence3 = (s ++ ['\n']) ++ fence3 from by simp]
    exact pyRfind_concat fence3 (s ++ ['\n']) (by simp [fence3])
  have h4 : (s ++ '\n' :: fence3).take ((s ++ ['\n']).length) = s ++ ['\n'] := by
    rw [show s ++ '\n' :: fence3 = (s ++ ['\n']) ++ fence3 from by simp]
    exact List.take_left _ _
  simp only [strip_markdown_fences, h1, fence_prefix_fenceWrap, if_true, h2, h5, h3, h4]
  exact pyStrip_append_ws s ['\n'] (by intro c hc; simp at hc; rw [hc]; decide)

theorem strip_fences_id (s : List Char) (h0 : pyStrip s = s)
    (h1 : fence3.isPrefixOf s = false) (h2 : fence3.isSuffixOf s = false) :
    strip_markdown_fences s = s := by
  simp [strip_markdown_fences, h0, h1, h2]

theorem mem_of_mem_dropWhile {p : Char → Bool} {c : Char} :
    ∀ {l : List Char}, c ∈ l.dropWhile p → c ∈ l := by
  intro l
  induction l with
  | nil => intro h; simpa using h
  | cons a r ih =>
      intro h
      rw [List.dropWhile_cons] at h
      by_cases hp : p a = true
      · rw [if_pos hp] at h
        exact List.mem_cons_of_mem a (ih h)
      · rw [if_neg hp] at h
        exact h

theorem mem_pyStrip {c : Char} {l : List Char} (h : c ∈ pyStrip l) : c ∈ l := by
  simp only [pyStrip] at h
  rw [List.mem_reverse] at h
  have h2 := mem_of_mem_dropWhile h
  rw [List.mem_reverse] at h2
  exact mem_of_mem_dropWhile h2

theorem parseValue_btick (f : Nat) (r : List Char) :
    parseValue f (btick :: r) = none := by
  cases f with
  | zero => rfl
  | succ f => rfl

theorem jsonLoads_btick (r : List Char) : jsonLoadsL (btick :: r) = none := by
  have hsk : skipWs (btick :: r) = btick :: r := skipWs_cons_not (by decide)
  simp [jsonLoadsL, hsk, parseValue_btick]

theorem parseElems_arr :
    ∀ (f : Nat) (cs : List Char) (acc : List Json) (v : Json) (rest : List Char),
      parseElems f cs acc = some (v, rest) → ∃ es, v = Json.arr es := by
  intro f
  induction f with
  | zero =>
      intro cs acc v rest h
      simp [parseElems] at h
  | succ f ih =>
      intro cs acc v rest h
      simp only [parseElems] at h
      cases hpv : parseValue f cs with
      | none => simp [hpv] at h
      | some p =>
          obtain ⟨v1, r1⟩ := p
          simp only [hpv] at h
          split at h
          · exact ih _ _ _ _ h
          · simp only [Option.some.injEq, Prod.mk.injEq] at h
            exact ⟨acc ++ [v1], h.1.symm⟩
          · simp at h

theorem parseArrBody_arr (f : Nat) (cs : List Char) (v : Json) (rest : List Char)
    (h : parseArrBody f cs = some (v, rest)) : ∃ es, v = Json.arr es := by
  cases f with
  | zero => simp [parseArrBody] at h
  | succ f =>
      simp only [parseArrBody] at h
      split at h
      · simp only [Option.some.injEq, Prod.mk.injEq] at h
        exact ⟨[], h.1.symm⟩
      · exact parseElems_arr f _ _ _ _ h

theorem parseValue_obj_mem (f : Nat) (t : List Char) (fs : List (List Char × Json))
    (rest : List Char) (h : parseValue f t = some (Json.obj fs, rest)) :
    '\x7b' ∈ t := by
  cases f with
  | zero => simp [parseValue] at h
  | succ f =>
      simp only [parseValue] at h
      split at h <;>
        first
          | exact List.mem_cons_self _ _
          | (obtain ⟨es, he⟩ := parseArrBody_arr _ _ _ _ h; simp at he)
          | (simp only [Option.map_eq_some'] at h
             obtain ⟨p, hp, hpe⟩ := h
             simp at hpe)
          | (split at h
             · simp only [Option.map_eq_some'] at h
               obtain ⟨p, hp, hpe⟩ := h
               simp at hpe
             · simp at h)
          | simp at h

theorem jsonLoads_obj_mem {t : List Char} {d : Json} (h : jsonLoadsL t = some d)
    (hk : hasEvalsKey d = true) : '\x7b' ∈ t := by
  obtain ⟨fs, rfl⟩ : ∃ fs, d = Json.obj fs := by
    cases d with
    | obj fs => exact ⟨fs, rfl⟩
    | null => simp [hasEvalsKey] at hk
    | bool b => simp [hasEvalsKey] at hk
    | num q => simp [hasEvalsKey] at hk
    | str s => simp [hasEvalsKey] at hk
    | arr a => simp [hasEvalsKey] at hk
  simp only [jsonLoadsL] at h
  cases hpv : parseValue (4 * t.length + 16) (skipWs t) with
  | none => simp [hpv] at h
  | some p =>
      obtain ⟨v, r⟩ := p
      simp only [hpv] at h
      split at h
      · simp only [Option.some.injEq] at h
        subst h
        exact mem_of_mem_dropWhile (parseValue_obj_mem _ _ _ _ hpv)
      · simp at h

theorem firstValid_hasKey :
    ∀ (ts : List (List Char)) (d : Json),
      firstValidJson ts = some d → hasEvalsKey d = true := by
  intro ts
  induction ts with
  | nil => intro d h; simp [firstValidJson] at h
  | cons t ts ih =>
      intro d h
      simp only [firstValidJson] at h
      cases hjl : jsonLoadsL t with
      | none => simp only [hjl] at h; exact ih d h
      | some e =>
          simp only [hjl] at h
          split at h
          · next hke =>
              simp only [Option.some.injEq] at h
              rw [← h]
              exact hke
          · exact ih d h

theorem firstValid_skip (t : List Char) (ts : List (List Char))
    (h : ∀ d, jsonLoadsL t = some d → hasEvalsKey d = false) :
    firstValidJson (t :: ts) = firstValidJson ts := by
  simp only [firstValidJson]
  cases hjl : jsonLoadsL t with
  | none => rfl
  | some d =>
      have := h d hjl
      simp [this]

theorem repairAux_nil (f : Nat) : repairAux f [] = [] := by
  cases f <;> rfl

theorem cleanFrom_tail {c : Char} {rest : List Char}
    (h : cleanFrom (c :: rest) = true) : cleanFrom rest = true := by
  simp only [cleanFrom, Bool.and_eq_true] at h
  exact h.2

theorem repairAux_clean : ∀ (l : List Char), cleanFrom l = true →
    ∀ f, repairAux f l = l := by
  intro l
  induction l with
  | nil => intro _ f; exact repairAux_nil f
  | cons c rest ih =>
      intro h f
      cases f with
      | zero => rfl
      | succ f =>
          have ht := cleanFrom_tail h
          by_cases hc : c = ','
          · subst hc
            simp only [cleanFrom, Bool.and_eq_true] at h
            obtain ⟨h1, _⟩ := h
            rw [if_pos trivial] at h1
            simp only [repairAux]
            rw [if_pos trivial]
            cases hdw : rest.dropWhile isReWs with
            | nil =>
                simp only [hdw]
                rw [ih ht f]
            | cons b r2 =>
                simp only [hdw] at h1 ⊢
                by_cases hb : b = '\x7d' ∨ b = ']'
                · rw [if_pos hb] at h1
                  exact absurd h1 (by simp)
                · rw [if_neg hb]
                  rw [ih ht f]
          · simp only [repairAux]
            rw [if_neg hc, ih ht f]

theorem repairAux_length : ∀ (f : Nat) (l : List Char),
    (repairAux f l).length ≤ l.length := by
  intro f
  induction f with
  | zero => intro l; simp [repairAux]
  | succ f ih =>
      intro l
      cases l with
      | nil => simp [repairAux]
      | cons c rest =>
          by_cases hc : c = ','
          · subst hc
            simp only [repairAux]
            rw [if_pos trivial]
            cases hdw : rest.dropWhile isReWs with
            | nil =>
                simp only [hdw, List.length_cons]
                exact Nat.succ_le_succ (ih rest)
            | cons b r2 =>
                simp only [hdw]
                by_cases hb : b = '\x7d' ∨ b = ']'
                · rw [if_pos hb]
                  have hsub : (b :: r2).length ≤ rest.length := by
                    have hlen := length_dropWhile_le isReWs rest
                    rw [hdw] at hlen
                    exact hlen
                  have h2 := ih r2
                  simp only [List.length_cons] at hsub ⊢
                  omega
                · rw [if_neg hb]
                  simp only [List.length_cons]
                  exact Nat.succ_le_succ (ih rest)
          · simp only [repairAux]
            rw [if_neg hc]
            simp only [List.length_cons]
            exact Nat.succ_le_succ (ih rest)

theorem repairAux_dirty : ∀ (l : List Char), cleanFrom l = false →
    ∀ f, l.length < f → (repairAux f l).length < l.length := by
  intro l
  induction l with
  | nil => intro h; simp [cleanFrom] at h
  | cons c rest ih =>
      intro h f hf
      cases f with
      | zero => omega
      | succ f =>
          have hf' : rest.length < f := by
            simp only [List.length_cons] at hf
            omega
          by_cases hc : c = ','
          · subst hc
            simp only [repairAux]
            rw [if_pos trivial]
            cases hdw : rest.dropWhile isReWs with
            | nil =>
                have hr : cleanFrom rest = false := by
                  cases hcr : cleanFrom rest with
                  | false => rfl
                  | true =>
                      have hgood : cleanFrom (',' :: rest) = true := by
                        simp [cleanFrom, hdw, hcr]
                      exact absurd (hgood.symm.trans h) (by decide)
                simp only [hdw, List.length_cons]
                exact Nat.succ_lt_succ (ih hr f hf')
            | cons b r2 =>
                simp only [hdw]
                by_cases hb : b = '\x7d' ∨ b = ']'
                · rw [if_pos hb]
                  have hsub : (b :: r2).length ≤ rest.length := by
                    have hlen := length_dropWhile_le isReWs rest
                    rw [hdw] at hlen
                    exact hlen
                  have h2 := repairAux_length f r2
                  simp only [List.length_cons] at hsub ⊢
                  omega
                · rw [if_neg hb]
                  have hr : cleanFrom rest = false := by
                    cases hcr : cleanFrom rest with
                    | false => rfl
                    | true =>
                        have hgood : cleanFrom (',' :: rest) = true := by
                          simp [cleanFrom, hdw, hb, hcr]
                        exact absurd (hgood.symm.trans h) (by decide)
                  simp only [List.length_cons]
                  exact Nat.succ_lt_succ (ih hr f hf')
          · have hr : cleanFrom rest = false := by
              cases hcr : cleanFrom rest with
              | false => rfl
              | true =>
                  have hgood : cleanFrom (c :: rest) = true := by
                    simp [cleanFrom, hc, hcr]
                  exact absurd (hgood.symm.trans h) (by decide)
            simp only [repairAux]
            rw [if_neg hc]
            simp only [List.length_cons]
            exact Nat.succ_lt_succ (ih hr f hf')

theorem repair_fix_clean {l : List Char} (h : repair_json l = l) :
    cleanFrom l = true := by
  cases hx : cleanFrom l with
  | true => rfl
  | false =>
      exfalso
      have hd := repairAux_dirty l hx (l.length + 1) (by omega)
      rw [show repairAux (l.length + 1) l = repair_json l from rfl, h] at hd
      omega

theorem repair_insert_comma : ∀ (u : List Char), cleanFrom (u ++ ['\x7d']) = true →
    ∀ f, u.length + 2 < f → repairAux f (u ++ [',', '\x7d']) = u ++ ['\x7d'] := by
  intro u
  induction u with
  | nil =>
      intro _ f hf
      cases f with
      | zero => omega
      | succ f =>
          show repairAux (f + 1) (',' :: ['\x7d']) = ['\x7d']
          simp [repairAux, repairAux_nil,
            show List.dropWhile isReWs ['\x7d'] = ['\x7d'] from by decide]
  | cons c u' ih =>
      intro h f hf
      cases f with
      | zero => omega
      | succ f =>
          have hf' : u'.length + 2 < f := by
            simp only [List.length_cons] at hf
            omega
          have h' : cleanFrom (c :: (u' ++ ['\x7d'])) = true := by
            rw [← List.cons_append]
            exact h
          have ht : cleanFrom (u' ++ ['\x7d']) = true := cleanFrom_tail h'
          show repairAux (f + 1) ((c :: u') ++ [',', '\x7d']) = (c :: u') ++ ['\x7d']
          rw [List.cons_append, List.cons_append]
          by_cases hc : c = ','
          · subst hc
            simp only [repairAux]
            rw [if_pos trivial]
            cases hdw : u'.dropWhile isReWs with
            | nil =>
                exfalso
                have hdw2 : (u' ++ ['\x7d']).dropWhile isReWs = ['\x7d'] := by
                  rw [dropWhile_append_all ['\x7d'] (List.dropWhile_eq_nil_iff.mp hdw)]
                  decide
                have hfalse : cleanFrom (',' :: (u' ++ ['\x7d'])) = false := by
                  simp [cleanFrom, hdw2]
                exact absurd (h'.symm.trans hfalse) (by decide)
            | cons b r2 =>
                have hne : u'.dropWhile isReWs ≠ [] := by rw [hdw]; simp
                have hsplit1 : (u' ++ ['\x7d']).dropWhile isReWs = b :: (r2 ++ ['\x7d']) := by
                  rw [dropWhile_append_ne ['\x7d'] hne, hdw]
                  rfl
                have hsplit2 : (u' ++ [',', '\x7d']).dropWhile isReWs
                    = b :: (r2 ++ [',', '\x7d']) := by
                  rw [dropWhile_append_ne [',', '\x7d'] hne, hdw]
                  rfl
                have hb : ¬(b = '\x7d' ∨ b = ']') := by
                  intro hbc
                  have hfalse : cleanFrom (',' :: (u' ++ ['\x7d'])) = false := by
                    rcases hbc with rfl | rfl <;> simp [cleanFrom, hsplit1]
                  exact absurd (h'.symm.trans hfalse) (by decide)
                simp only [hsplit2]
                rw [if_neg hb, ih ht f hf']
          · simp only [repairAux]
            rw [if_neg hc, ih ht f hf']

theorem repair_json_insert (u : List Char)
    (h : repair_json (u ++ ['\x7d']) = u ++ ['\x7d']) :
    repair_json (u ++ [',', '\x7d']) = u ++ ['\x7d'] := by
  have hc := repair_fix_clean h
  show repairAux ((u ++ [',', '\x7d']).length + 1) (u ++ [',', '\x7d']) = u ++ ['\x7d']
  apply repair_insert_comma u hc
  simp only [List.length_append, List.length_cons]
  omega

theorem mem_strip_fences {c : Char} {s : List Char}
    (h : c ∈ strip_markdown_fences s) : c ∈ s := by
  simp only [strip_markdown_fences] at h
  by_cases hp : fence3.isPrefixOf (pyStrip s) = true
  · simp only [hp, eq_self_iff_true, if_true] at h
    have h3 := mem_pyStrip h
    have hJ : c ∈ pyJoinNl ((pySplitNl (pyStrip s)).drop 1) := by
      split at h3
      · split at h3
        · exact (List.take_sublist _ _).subset h3
        · exact h3
      · exact h3
    exact mem_pyStrip ((joinDrop_suffix (pyStrip s)).sublist.subset hJ)
  · simp only [if_neg hp] at h
    have h3 := mem_pyStrip h
    have hJ : c ∈ pyStrip s := by
      split at h3
      · split at h3
        · exact (List.take_sublist _ _).subset h3
        · exact h3
      · exact h3
    exact mem_pyStrip hJ

theorem extract_none_of_no_brace (s : List Char) (h : '\x7b' ∉ s) :
    extract_json_block s = none := by
  have hdw : s.dropWhile (fun c => !(c = '\x7b' : Bool)) = [] := by
    rw [List.dropWhile_eq_nil_iff]
    intro x hx
    simp
    exact fun he => h (he ▸ hx)
  simp [extract_json_block, hdw]

/-- C5: the Recovery Parser (`_try_parse_json`) tries, in order, the direct
parse of the stripped raw text, the parse after Markdown-fence stripping, the
parse of the first balanced brace block, and the parse of that block after
trailing-comma repair, succeeding with the first attempt yielding a JSON
object with an `evaluations` key.  Consequently: (i) any success carries the
`evaluations` key; (ii) a directly parseable object is returned as is;
(iii) the same object wrapped in Markdown fences parses to the same data;
(iv) the object with one trailing comma inserted before its closing brace
parses to the same data, provided the comma'd text itself does not parse, the
block extractor returns the whole text, and the trailing-comma repair leaves
the original text unchanged; (v) a string containing no `\x7b` at all yields
the unparseable outcome `none`. -/
theorem c5_recovery_layers :
    (∀ raw d, try_parse_json raw = some d → hasEvalsKey d = true) ∧
    (∀ s v, jsonLoadsL (pyStrip s) = some v → hasEvalsKey v = true →
      try_parse_json s = some v) ∧
    (∀ s v, jsonLoadsL (pyStrip s) = some v → hasEvalsKey v = true →
      try_parse_json (fenceWrap s) = some v) ∧
    (∀ u v, jsonLoadsL (u ++ ['\x7d']) = some v → hasEvalsKey v = true →
      u.head? = some '\x7b' →
      repair_json (u ++ ['\x7d']) = u ++ ['\x7d'] →
      jsonLoadsL (u ++ [',', '\x7d']) = none →
      extract_json_block (u ++ [',', '\x7d']) = some (u ++ [',', '\x7d']) →
      try_parse_json (u ++ [',', '\x7d']) = some v) ∧
    (∀ s, '\x7b' ∉ s → try_parse_json s = none) := by
  refine ⟨?_, ?_, ?_, ?_, ?_⟩
  · intro raw d h
    exact firstValid_hasKey _ d h
  · intro s v hs hv
    simp [try_parse_json, firstValidJson, hs, hv]
  · intro s v hs hv
    have hwrap : fenceWrap s
        = btick :: (btick :: btick :: ("json\n".data ++ (s ++ '\n' :: fence3))) := by
      simp [fenceWrap, fence3]
    have hfail : jsonLoadsL (pyStrip (fenceWrap s)) = none := by
      rw [pyStrip_fenceWrap, hwrap]
      exact jsonLoads_btick _
    have hstrip := strip_fences_wrap s
    simp [try_parse_json, firstValidJson, hfail, hstrip, hs, hv]
  · intro u v h1 h2 h5 h3 h4 h6
    obtain ⟨u2, rfl⟩ : ∃ u2, u = '\x7b' :: u2 := by
      cases u with
      | nil => exact absurd h5 (by simp)
      | cons a u2 =>
          have ha : a = '\x7b' := by simpa using h5
          exact ⟨u2, by rw [ha]⟩
    have hstrip : pyStrip (('\x7b' :: u2) ++ [',', '\x7d'])
        = ('\x7b' :: u2) ++ [',', '\x7d'] := by
      apply pyStrip_no_ws
      · intro c hc
        have hh : (('\x7b' :: u2) ++ [',', '\x7d']).head? = some '\x7b' := rfl
        rw [hh] at hc
        simp only [Option.some.injEq] at hc
        rw [← hc]
        decide
      · intro c hc
        have hlast : (('\x7b' :: u2) ++ [',', '\x7d']).getLast? = some '\x7d' := by
          rw [show ('\x7b' :: u2) ++ [',', '\x7d']
              = (('\x7b' :: u2) ++ [',']) ++ ['\x7d'] from by simp]
          exact List.getLast?_concat _
        rw [hlast] at hc
        simp only [Option.some.injEq] at hc
        rw [← hc]
        decide
    have hnp : fence3.isPrefixOf (('\x7b' :: u2) ++ [',', '\x7d']) = false := by
      rw [List.cons_append]
      exact fence_notPrefix (by decide) _
    have hns : fence3.isSuffixOf (('\x7b' :: u2) ++ [',', '\x7d']) = false := by
      rw [show ('\x7b' :: u2) ++ [',', '\x7d']
          = (('\x7b' :: u2) ++ [',']) ++ ['\x7d'] from by simp]
      exact fence_notSuffix (by decide) _
    have hstr : strip_markdown_fences (('\x7b' :: u2) ++ [',', '\x7d'])
        = ('\x7b' :: u2) ++ [',', '\x7d'] := strip_fences_id _ hstrip hnp hns
    have hrep : repair_json (('\x7b' :: u2) ++ [',', '\x7d'])
        = ('\x7b' :: u2) ++ ['\x7d'] := repair_json_insert _ h3
    simp only [List.cons_append] at hstrip hstr hrep h1 h4 h6
    simp [try_parse_json, h6, firstValidJson, hstrip, hstr, h4, hrep, h1, h2]
  · intro s hnb
    have hext : extract_json_block s = none := extract_none_of_no_brace s hnb
    have hskip1 : ∀ d, jsonLoadsL (pyStrip s) = some d → hasEvalsKey d = false := by
      intro d hd
      cases hk : hasEvalsKey d with
      | false => rfl
      | true => exact absurd (mem_pyStrip (jsonLoads_obj_mem hd hk)) hnb
    have hskip2 : ∀ d, jsonLoadsL (strip_markdown_fences s) = some d →
        hasEvalsKey d = false := by
      intro d hd
      cases hk : hasEvalsKey d with
      | false => rfl
      | true => exact absurd (mem_strip_fences (jsonLoads_obj_mem hd hk)) hnb
    simp only [try_parse_json, hext, List.append_nil]
    rw [firstValid_skip _ _ hskip1, firstValid_skip _ _ hskip2]
    rfl

/-- C5 witness: the clean object `sW5` is parsed directly, survives Markdown
fencing, survives one trailing comma before its closing brace, and a text
with no JSON object at all yields `none`. -/
theorem c5_recovery_layers_witness :
    try_parse_json sW5 = some vW5 ∧
    try_parse_json (fenceWrap sW5) = some vW5 ∧
    try_parse_json (uW5 ++ [',', '\x7d']) = some vW5 ∧
    try_parse_json bad5 = none := by
  refine ⟨?_, ?_, ?_, ?_⟩
  · exact c5_recovery_layers.2.1 sW5 vW5 (by decide) (by decide)
  · exact c5_recovery_layers.2.2.1 sW5 vW5 (by decide) (by decide)
  · exact c5_recovery_layers.2.2.2.1 uW5 vW5 (by decide) (by decide) (by decide)
      (by decide) (by decide) (by decide)
  · exact c5_recovery_layers.2.2.2.2 bad5 (by decide)

/-- C5 counterexample: `uC5` plus a closing brace parses directly to `vC5`
(whose `x` value is the string `,\x7d`), but with one trailing comma inserted
before the closing brace the recovery parser returns `wC5` (whose `x` value
is `\x7d`): `_repair_json` rewrites string literals too, so the recovered
data is not equivalent to the original. -/
theorem c5_counterexample :
    jsonLoadsL (pyStrip (uC5 ++ ['\x7d'])) = some vC5 ∧
    hasEvalsKey vC5 = true ∧
    try_parse_json (uC5 ++ [',', '\x7d']) = some wC5 ∧
    wC5 ≠ vC5 := by
  refine ⟨by decide, by decide, by decide, by decide⟩

end DQC
